import Mathlib

/-!
Shallow embedding of the maintenance-data scripts
(`clean_interventions.py`, `analyze_maintenance_metrics.py`,
`app_maintenance.py`, `app_maintenance_dashboard.py`,
`app_maintenance_dashboard_v2.py`) together with theorems about the
cleaning pipeline and the analysis functions.

Strings are modelled as Lean `String`s (lists of characters), pandas
scalar cells as a `Value` sum type (`null` models `NaN`), and float
arithmetic as exact rational arithmetic with decimal half-to-even
rounding for Python's `round(x, 2)`.  Python's case functions are
modelled on ASCII letters plus the accented letters that occur in the
cleaning tables; all other characters are treated as uncased.
-/

namespace Maintenance

/-- A scalar cell of a pandas column: missing (`NaN`), a string, or a number. -/
inductive Value where
  | null : Value
  | str (s : String) : Value
  | num (q : ℚ) : Value
deriving DecidableEq

/-- First-match association-list lookup; models a Python `dict` access
(the embedded dictionaries all have pairwise distinct keys). -/
def alookup {α β : Type} [DecidableEq α] : List (α × β) → α → Option β
  | [], _ => none
  | (k, v) :: rest, a => if a = k then some v else alookup rest a

theorem alookup_cases {α β : Type} [DecidableEq α] (l : List (α × β)) (a : α) :
    alookup l a = none ∨ ∃ b, alookup l a = some b ∧ (a, b) ∈ l := by
  induction l with
  | nil => exact Or.inl rfl
  | cons p rest ih =>
      obtain ⟨k, v⟩ := p
      by_cases h : a = k
      · subst h
        exact Or.inr ⟨v, by simp [alookup], by simp⟩
      · rcases ih with h0 | ⟨b, hb, hm⟩
        · exact Or.inl (by simp [alookup, h, h0])
        · exact Or.inr ⟨b, by simp [alookup, h, hb], by simp [hm]⟩

/-- Uppercase-to-lowercase pairs: ASCII letters plus the accented letters
used by the cleaning tables (mirrors Python `str.lower` on this alphabet). -/
def lowerPairs : List (Char × Char) :=
  [('A','a'), ('B','b'), ('C','c'), ('D','d'), ('E','e'), ('F','f'), ('G','g'),
   ('H','h'), ('I','i'), ('J','j'), ('K','k'), ('L','l'), ('M','m'), ('N','n'),
   ('O','o'), ('P','p'), ('Q','q'), ('R','r'), ('S','s'), ('T','t'), ('U','u'),
   ('V','v'), ('W','w'), ('X','x'), ('Y','y'), ('Z','z'),
   ('É','é'), ('È','è'), ('Ê','ê'), ('À','à'), ('Ç','ç'),
   ('Ô','ô'), ('Î','î'), ('Û','û'), ('Ù','ù')]

/-- Lowercase-to-uppercase pairs (mirrors Python `str.upper` on this alphabet). -/
def upperPairs : List (Char × Char) := lowerPairs.map (fun p => (p.2, p.1))

/-- Python `str.lower`, character-wise. -/
def charToLower (c : Char) : Char := (alookup lowerPairs c).getD c

/-- Python `str.upper` (= titlecase on this alphabet), character-wise. -/
def charToUpper (c : Char) : Char := (alookup upperPairs c).getD c

/-- Whether a character is cased, in the sense used by Python `str.title`. -/
def charIsCased (c : Char) : Bool :=
  (alookup lowerPairs c).isSome || (alookup upperPairs c).isSome

/-- The whitespace characters stripped by Python `str.strip()` and matched
by the regex class `\s` for the inputs in play. -/
def isSpaceChar (c : Char) : Bool :=
  c = ' ' || c = '\t' || c = '\n' || c = '\r' || c = '\x0b' || c = '\x0c'

theorem lowerPairs_facts : ∀ p ∈ lowerPairs,
    alookup lowerPairs p.2 = none ∧ alookup upperPairs p.2 = some p.1 ∧
    alookup upperPairs p.1 = none ∧ alookup lowerPairs p.1 = some p.2 ∧
    isSpaceChar p.1 = false ∧ isSpaceChar p.2 = false := by decide

theorem upperPairs_facts : ∀ p ∈ upperPairs,
    alookup upperPairs p.2 = none ∧ alookup lowerPairs p.2 = some p.1 ∧
    alookup lowerPairs p.1 = none ∧ alookup upperPairs p.1 = some p.2 ∧
    isSpaceChar p.1 = false ∧ isSpaceChar p.2 = false := by decide

theorem charToLower_charToLower (c : Char) :
    charToLower (charToLower c) = charToLower c := by
  rcases alookup_cases lowerPairs c with h | ⟨d, h, hm⟩
  · simp [charToLower, h]
  · simp [charToLower, h, (lowerPairs_facts _ hm).1]

theorem charToUpper_charToUpper (c : Char) :
    charToUpper (charToUpper c) = charToUpper c := by
  rcases alookup_cases upperPairs c with h | ⟨d, h, hm⟩
  · simp [charToUpper, h]
  · simp [charToUpper, h, (upperPairs_facts _ hm).1]

theorem charToLower_charToUpper (c : Char) :
    charToLower (charToUpper c) = charToLower c := by
  rcases alookup_cases upperPairs c with h | ⟨d, h, hm⟩
  · simp [charToUpper, h]
  · have hf := upperPairs_facts _ hm
    simp [charToUpper, h, charToLower, hf.2.1, hf.2.2.1]

theorem charIsCased_charToUpper (c : Char) :
    charIsCased (charToUpper c) = charIsCased c := by
  rcases alookup_cases upperPairs c with h | ⟨d, h, hm⟩
  · simp [charToUpper, h]
  · have hf := upperPairs_facts _ hm
    simp [charToUpper, h, charIsCased, hf.1, hf.2.1, hf.2.2.1, hf.2.2.2.1]

theorem charIsCased_charToLower (c : Char) :
    charIsCased (charToLower c) = charIsCased c := by
  rcases alookup_cases lowerPairs c with h | ⟨d, h, hm⟩
  · simp [charToLower, h]
  · have hf := lowerPairs_facts _ hm
    simp [charToLower, h, charIsCased, hf.1, hf.2.1, hf.2.2.1, hf.2.2.2.1]

theorem isSpaceChar_charToUpper (c : Char) :
    isSpaceChar (charToUpper c) = isSpaceChar c := by
  rcases alookup_cases upperPairs c with h | ⟨d, h, hm⟩
  · simp [charToUpper, h]
  · have hf := upperPairs_facts _ hm
    simp [charToUpper, h, hf.2.2.2.2.1, hf.2.2.2.2.2]

theorem isSpaceChar_charToLower (c : Char) :
    isSpaceChar (charToLower c) = isSpaceChar c := by
  rcases alookup_cases lowerPairs c with h | ⟨d, h, hm⟩
  · simp [charToLower, h]
  · have hf := lowerPairs_facts _ hm
    simp [charToLower, h, hf.2.2.2.2.1, hf.2.2.2.2.2]

/-- Python `str.title`, one character at a time: a character preceded by a
cased character is lowercased, otherwise it is titlecased (here: uppercased).
The Boolean state records whether the previous character was cased. -/
def titleAux : Bool → List Char → List Char
  | _, [] => []
  | true, c :: rest => charToLower c :: titleAux (charIsCased c) rest
  | false, c :: rest => charToUpper c :: titleAux (charIsCased c) rest

/-- Python `str.title`. -/
def titleStr (s : String) : String := ⟨titleAux false s.data⟩

theorem titleAux_titleAux (l : List Char) :
    ∀ pc, titleAux pc (titleAux pc l) = titleAux pc l := by
  induction l with
  | nil => intro pc; cases pc <;> rfl
  | cons c rest ih =>
      intro pc
      cases pc with
      | true =>
          simp only [titleAux]
          rw [charToLower_charToLower, charIsCased_charToLower]
          exact congrArg _ (ih (charIsCased c))
      | false =>
          simp only [titleAux]
          rw [charToUpper_charToUpper, charIsCased_charToUpper]
          exact congrArg _ (ih (charIsCased c))

theorem map_charToLower_titleAux (l : List Char) :
    ∀ pc, (titleAux pc l).map charToLower = l.map charToLower := by
  induction l with
  | nil => intro pc; cases pc <;> rfl
  | cons c rest ih =>
      intro pc
      cases pc with
      | true =>
          simp only [titleAux, List.map_cons]
          rw [charToLower_charToLower, ih]
      | false =>
          simp only [titleAux, List.map_cons]
          rw [charToLower_charToUpper, ih]

theorem map_isSpaceChar_titleAux (l : List Char) :
    ∀ pc, (titleAux pc l).map isSpaceChar = l.map isSpaceChar := by
  induction l with
  | nil => intro pc; cases pc <;> rfl
  | cons c rest ih =>
      intro pc
      cases pc with
      | true =>
          simp only [titleAux, List.map_cons]
          rw [isSpaceChar_charToLower, ih]
      | false =>
          simp only [titleAux, List.map_cons]
          rw [isSpaceChar_charToUpper, ih]

theorem length_titleAux (l : List Char) : ∀ pc, (titleAux pc l).length = l.length := by
  induction l with
  | nil => intro pc; cases pc <;> rfl
  | cons c rest ih => intro pc; cases pc <;> simp [titleAux, ih]

/-- Python `str.strip()`: drop leading and trailing whitespace. -/
def stripList (l : List Char) : List Char :=
  List.rdropWhile isSpaceChar (l.dropWhile isSpaceChar)

/-- Python `str.strip()` on `String`s. -/
def stripStr (s : String) : String := ⟨stripList s.data⟩

theorem dropWhile_length_le {α : Type} (p : α → Bool) (l : List α) :
    (l.dropWhile p).length ≤ l.length := by
  induction l with
  | nil => simp
  | cons c t ih =>
      by_cases h : p c
      · rw [List.dropWhile_cons_of_pos h]; exact Nat.le_trans ih (by simp)
      · rw [List.dropWhile_cons_of_neg h]

theorem dropWhile_cons_self_iff {α : Type} (p : α → Bool) (c : α) (t : List α) :
    p c = false → List.dropWhile p (c :: t) = c :: t := by
  intro h
  exact List.dropWhile_cons_of_neg (by simp [h])

theorem head_not_p_of_dropWhile_eq_self {α : Type} (p : α → Bool) (c : α) (t : List α)
    (h : List.dropWhile p (c :: t) = c :: t) : p c = false := by
  by_cases hc : p c
  · rw [List.dropWhile_cons_of_pos hc] at h
    have := congrArg List.length h
    have hle := dropWhile_length_le p t
    simp at this
    omega
  · simpa using hc

theorem dropWhile_rdropWhile {α : Type} (p : α → Bool) (l : List α)
    (h : l.dropWhile p = l) :
    (List.rdropWhile p l).dropWhile p = List.rdropWhile p l := by
  induction l using List.reverseRecOn with
  | nil => simp [List.rdropWhile]
  | append_singleton m x ih =>
      by_cases hx : p x
      · rw [List.rdropWhile_concat_pos _ _ _ hx]
        cases m with
        | nil =>
            simp only [List.nil_append] at h
            rw [List.dropWhile_cons_of_pos hx] at h
            simp at h
        | cons c t =>
            have hc : p c = false := by
              apply head_not_p_of_dropWhile_eq_self p c (t ++ [x])
              simpa using h
            apply ih
            exact dropWhile_cons_self_iff p c t hc
      · rw [List.rdropWhile_concat_neg _ _ _ hx]
        exact h

theorem stripList_components (l : List Char) :
    (stripList l).dropWhile isSpaceChar = stripList l ∧
    List.rdropWhile isSpaceChar (stripList l) = stripList l := by
  constructor
  · exact dropWhile_rdropWhile isSpaceChar _ (List.dropWhile_idempotent _ _)
  · exact List.rdropWhile_idempotent _ _

theorem stripList_stripList (l : List Char) :
    stripList (stripList l) = stripList l := by
  have h := stripList_components l
  rw [stripList, h.1, h.2]

/-- A list all of whose characters are non-space is unchanged by `stripList`. -/
theorem stripList_eq_self_of_no_space (l : List Char)
    (h : ∀ c ∈ l, isSpaceChar c = false) : stripList l = l := by
  have h1 : l.dropWhile isSpaceChar = l := by
    cases l with
    | nil => rfl
    | cons c t => exact dropWhile_cons_self_iff _ _ _ (h c (by simp))
  rw [stripList, h1]
  rw [List.rdropWhile_eq_self_iff]
  intro hl
  simp [h _ (List.getLast_mem hl)]

/-- Titlecasing a stripped list yields a stripped list. -/
theorem stripList_titleAux_stripList (s : List Char) :
    stripList (titleAux false (stripList s)) = titleAux false (stripList s) := by
  have hcomp := stripList_components s
  set t := stripList s with ht
  set r := titleAux false t with hr
  have hmap : r.map isSpaceChar = t.map isSpaceChar := map_isSpaceChar_titleAux t false
  have h1 : r.dropWhile isSpaceChar = r := by
    cases htc : t with
    | nil => rw [hr, htc]; rfl
    | cons c ts =>
        have hc : isSpaceChar c = false := by
          apply head_not_p_of_dropWhile_eq_self isSpaceChar c ts
          rw [← htc]; exact hcomp.1
        rw [hr, htc]
        simp only [titleAux]
        apply dropWhile_cons_self_iff
        rw [isSpaceChar_charToUpper]
        exact hc
  have h2 : List.rdropWhile isSpaceChar r = r := by
    rw [List.rdropWhile_eq_self_iff]
    intro hrne
    have htne : t ≠ [] := by
      intro hteq
      rw [hr, hteq] at hrne
      exact hrne rfl
    have hts := List.rdropWhile_eq_self_iff.mp hcomp.2 htne
    have hgl : ((r.map isSpaceChar).getLast?) = ((t.map isSpaceChar).getLast?) := by
      rw [hmap]
    rw [List.getLast?_map, List.getLast?_map,
      List.getLast?_eq_getLast r hrne, List.getLast?_eq_getLast t htne] at hgl
    simp only [Option.map_some'] at hgl
    have hlast : isSpaceChar (r.getLast hrne) = isSpaceChar (t.getLast htne) :=
      Option.some.inj hgl
    rw [hlast]
    simpa using hts
  rw [stripList, h1, h2]

/-! ### Decimal digits, Python `str(float)` and `float(str)` -/

/-- Whether a character is an ASCII decimal digit (regex class `\d`). -/
def isDigitChar (c : Char) : Bool := '0' ≤ c && c ≤ '9'

/-- Numeric value of a digit character. -/
def digitVal (c : Char) : Nat := c.toNat - 48

/-- The digit character for `d < 10`. -/
def digitChar (d : Nat) : Char := Char.ofNat (48 + d)

theorem digitChar_facts : ∀ d < 10,
    isDigitChar (digitChar d) = true ∧ digitVal (digitChar d) = d ∧
    isSpaceChar (digitChar d) = false ∧ charIsCased (digitChar d) = false := by decide

/-- Decimal digits, least significant first, with explicit fuel so that the
kernel can evaluate the function; `natDigitsRev` supplies enough fuel. -/
def natDigitsRevAux : Nat → Nat → List Char
  | 0, n => [digitChar n]
  | fuel + 1, n =>
      if n < 10 then [digitChar n]
      else digitChar (n % 10) :: natDigitsRevAux fuel (n / 10)

/-- Decimal digits of a natural number, least significant first. -/
def natDigitsRev (n : Nat) : List Char := natDigitsRevAux n n

theorem natDigitsRevAux_zero (n : Nat) : natDigitsRevAux 0 n = [digitChar n] := rfl

theorem natDigitsRevAux_succ (fuel n : Nat) :
    natDigitsRevAux (fuel + 1) n = if n < 10 then [digitChar n]
      else digitChar (n % 10) :: natDigitsRevAux fuel (n / 10) := rfl

theorem natDigitsRevAux_congr :
    ∀ fuel₁ fuel₂ n, n ≤ fuel₁ → n ≤ fuel₂ →
      natDigitsRevAux fuel₁ n = natDigitsRevAux fuel₂ n := by
  intro fuel₁
  induction fuel₁ with
  | zero =>
      intro fuel₂ n h1 _
      have hn : n = 0 := by omega
      subst hn
      cases fuel₂ with
      | zero => rfl
      | succ f => rw [natDigitsRevAux_succ, if_pos (by omega), natDigitsRevAux_zero]
  | succ f ih =>
      intro fuel₂ n h1 h2
      by_cases hn : n < 10
      · cases fuel₂ with
        | zero =>
            have hn0 : n = 0 := by omega
            subst hn0
            rw [natDigitsRevAux_succ, if_pos (by omega), natDigitsRevAux_zero]
        | succ f2 =>
            rw [natDigitsRevAux_succ, natDigitsRevAux_succ, if_pos hn, if_pos hn]
      · cases fuel₂ with
        | zero => omega
        | succ f2 =>
            rw [natDigitsRevAux_succ, natDigitsRevAux_succ, if_neg hn, if_neg hn]
            have hdiv : n / 10 ≤ f := by omega
            have hdiv2 : n / 10 ≤ f2 := by omega
            rw [ih f2 (n / 10) hdiv hdiv2]

/-- The defining unfolding of `natDigitsRev`. -/
theorem natDigitsRev_eq (n : Nat) :
    natDigitsRev n = if n < 10 then [digitChar n]
      else digitChar (n % 10) :: natDigitsRev (n / 10) := by
  by_cases hn : n < 10
  · rw [if_pos hn, natDigitsRev]
    cases n with
    | zero => rfl
    | succ m => rw [natDigitsRevAux_succ, if_pos hn]
  · rw [if_neg hn, natDigitsRev]
    obtain ⟨m, hm⟩ : ∃ m, n = m + 1 := ⟨n - 1, by omega⟩
    subst hm
    rw [natDigitsRevAux_succ, if_neg hn, natDigitsRev]
    rw [natDigitsRevAux_congr m ((m + 1) / 10) ((m + 1) / 10) (by omega) le_rfl]

/-- Decimal notation of a natural number (Python `str` on a non-negative `int`). -/
def natToDigits (n : Nat) : List Char := (natDigitsRev n).reverse

/-- Value of a digit list, least significant first. -/
def digitsFromRev : List Char → Nat
  | [] => 0
  | c :: t => digitVal c + 10 * digitsFromRev t

/-- Value of a digit list, most significant first. -/
def digitsToNat (l : List Char) : Nat := l.foldl (fun a c => a * 10 + digitVal c) 0

theorem digitsToNat_append (l r : List Char) :
    digitsToNat (l ++ r) = r.foldl (fun a c => a * 10 + digitVal c) (digitsToNat l) := by
  simp [digitsToNat, List.foldl_append]

theorem digitsToNat_reverse (l : List Char) :
    digitsToNat l.reverse = digitsFromRev l := by
  induction l with
  | nil => rfl
  | cons c t ih =>
      rw [List.reverse_cons, digitsToNat_append]
      simp only [List.foldl_cons, List.foldl_nil]
      rw [ih]
      simp only [digitsFromRev]
      omega

theorem natDigitsRev_spec (n : Nat) :
    (∀ c ∈ natDigitsRev n, isDigitChar c = true) ∧ digitsFromRev (natDigitsRev n) = n := by
  induction n using Nat.strong_induction_on with
  | _ n ih =>
      rw [natDigitsRev_eq]
      by_cases h : n < 10
      · rw [if_pos h]
        have hd := digitChar_facts n h
        constructor
        · intro c hc
          simp at hc
          rw [hc]
          exact hd.1
        · simp [digitsFromRev, hd.2.1]
      · rw [if_neg h]
        have hlt : n / 10 < n := Nat.div_lt_self (by omega) (by omega)
        have ihd := ih (n / 10) hlt
        have hd := digitChar_facts (n % 10) (Nat.mod_lt _ (by omega))
        constructor
        · intro c hc
          rcases List.mem_cons.mp hc with hc | hc
          · rw [hc]; exact hd.1
          · exact ihd.1 c hc
        · simp [digitsFromRev, hd.2.1, ihd.2]
          omega

theorem natToDigits_all_digits (n : Nat) :
    ∀ c ∈ natToDigits n, isDigitChar c = true := by
  intro c hc
  rw [natToDigits, List.mem_reverse] at hc
  exact (natDigitsRev_spec n).1 c hc

theorem digitsToNat_natToDigits (n : Nat) : digitsToNat (natToDigits n) = n := by
  rw [natToDigits, digitsToNat_reverse]
  exact (natDigitsRev_spec n).2

theorem natDigitsRev_ne_nil (n : Nat) : natDigitsRev n ≠ [] := by
  rw [natDigitsRev_eq]
  by_cases h : n < 10
  · rw [if_pos h]; simp
  · rw [if_neg h]; simp

theorem natToDigits_ne_nil (n : Nat) : natToDigits n ≠ [] := by
  rw [natToDigits]
  simp [natDigitsRev_ne_nil]

theorem natDigitsRev_length_le (k : Nat) : ∀ n, n < 10 ^ k → 1 ≤ k →
    (natDigitsRev n).length ≤ k := by
  induction k with
  | zero => omega
  | succ k ihk =>
      intro n hn _
      rw [natDigitsRev_eq]
      by_cases h : n < 10
      · rw [if_pos h]; simp
      · rw [if_neg h]
        have hk1 : 1 ≤ k := by
          by_contra hk0
          have : k = 0 := by omega
          subst this
          simp at hn
          omega
        have hdiv : n / 10 < 10 ^ k := by
          rw [Nat.div_lt_iff_lt_mul (by omega)]
          calc n < 10 ^ (k + 1) := hn
          _ = 10 ^ k * 10 := by ring
        simp only [List.length_cons]
        have := ihk (n / 10) hdiv hk1
        omega

theorem natToDigits_length_le (k n : Nat) (hn : n < 10 ^ k) (hk : 1 ≤ k) :
    (natToDigits n).length ≤ k := by
  rw [natToDigits, List.length_reverse]
  exact natDigitsRev_length_le k n hn hk

/-- Left-pad a digit list with zeros to width `k`. -/
def padZeros (k : Nat) (l : List Char) : List Char :=
  List.replicate (k - l.length) '0' ++ l

theorem digitsToNat_replicate_zero (k : Nat) :
    digitsToNat (List.replicate k '0') = 0 := by
  induction k with
  | zero => rfl
  | succ k ih =>
      have : List.replicate (k + 1) '0' = '0' :: List.replicate k '0' := rfl
      rw [this]
      simpa [digitsToNat] using ih

theorem digitsToNat_padZeros (k : Nat) (l : List Char) :
    digitsToNat (padZeros k l) = digitsToNat l := by
  rw [padZeros, digitsToNat_append]
  have h0 : digitsToNat (List.replicate (k - l.length) '0') = 0 :=
    digitsToNat_replicate_zero _
  rw [h0]
  rfl

theorem padZeros_length (k : Nat) (l : List Char) (h : l.length ≤ k) :
    (padZeros k l).length = k := by
  simp [padZeros]
  omega

theorem padZeros_all_digits (k : Nat) (l : List Char)
    (h : ∀ c ∈ l, isDigitChar c = true) :
    ∀ c ∈ padZeros k l, isDigitChar c = true := by
  intro c hc
  rw [padZeros, List.mem_append] at hc
  rcases hc with hc | hc
  · have := List.eq_of_mem_replicate hc
    rw [this]; decide
  · exact h c hc

/-- Smallest exponent `j` with `start ≤ j < start + fuel` such that `d` divides
`10 ^ j`, found by linear search. -/
def decExponentAux (d : Nat) : Nat → Nat → Option Nat
  | _, 0 => none
  | k, fuel + 1 => if d ∣ 10 ^ k then some k else decExponentAux d (k + 1) fuel

/-- Smallest `k` with `d ∣ 10 ^ k`, if any exists below 1201; the denominator
of any value a Python float can take is a power of two, hence has such a `k`. -/
def decExponent (d : Nat) : Option Nat := decExponentAux d 0 1201

theorem decExponentAux_dvd (d : Nat) :
    ∀ fuel k j, decExponentAux d k fuel = some j → d ∣ 10 ^ j := by
  intro fuel
  induction fuel with
  | zero => intro k j h; simp [decExponentAux] at h
  | succ fuel ih =>
      intro k j h
      rw [decExponentAux] at h
      by_cases hd : d ∣ 10 ^ k
      · rw [if_pos hd] at h
        cases h
        exact hd
      · rw [if_neg hd] at h
        exact ih (k + 1) j h

theorem decExponent_dvd (d k : Nat) (h : decExponent d = some k) : d ∣ 10 ^ k :=
  decExponentAux_dvd d 1201 0 k h

theorem decExponentAux_some_of_dvd (d : Nat) :
    ∀ fuel k m, k ≤ m → m < k + fuel → d ∣ 10 ^ m →
      ∃ j, decExponentAux d k fuel = some j := by
  intro fuel
  induction fuel with
  | zero => intro k m h1 h2; omega
  | succ fuel ih =>
      intro k m h1 h2 hd
      rw [decExponentAux]
      by_cases hk : d ∣ 10 ^ k
      · exact ⟨k, if_pos hk⟩
      · rw [if_neg hk]
        have hne : k ≠ m := fun he => hk (he ▸ hd)
        exact ih (k + 1) m (by omega) (by omega) hd

theorem decExponent_some_of_dvd (d m : Nat) (hm : m ≤ 1200) (hd : d ∣ 10 ^ m) :
    ∃ j, decExponent d = some j :=
  decExponentAux_some_of_dvd d 1201 0 m (by omega) (by omega) hd

/-- Python `str` on a float value, for values with a finite decimal expansion:
optional minus sign, integer part, a dot, then the fractional digits (at least
one, `0` for integers).  Values whose denominator divides no power of ten
cannot arise from a float; they are rendered as a fraction. -/
def renderRat (q : ℚ) : String :=
  let sign : List Char := if q < 0 then ['-'] else []
  match decExponent q.den with
  | some k =>
      let n : Nat := q.num.natAbs * (10 ^ k / q.den)
      let ip := natToDigits (n / 10 ^ k)
      let fp := if k = 0 then ['0'] else padZeros k (natToDigits (n % 10 ^ k))
      ⟨sign ++ ip ++ '.' :: fp⟩
  | none => ⟨sign ++ natToDigits q.num.natAbs ++ '/' :: natToDigits q.den⟩

/-- One unsigned decimal literal: digits, optionally a dot and more digits
(at least one digit overall, nothing left over). -/
def parseUnsigned (l : List Char) : Option ℚ :=
  if l.dropWhile isDigitChar = [] then
    if l.takeWhile isDigitChar = [] then none
    else some (digitsToNat (l.takeWhile isDigitChar) : ℚ)
  else if (l.dropWhile isDigitChar).head? = some '.' then
    if (l.dropWhile isDigitChar).tail.dropWhile isDigitChar = [] ∧
        ¬(l.takeWhile isDigitChar = [] ∧
          (l.dropWhile isDigitChar).tail.takeWhile isDigitChar = []) then
      some ((digitsToNat (l.takeWhile isDigitChar) : ℚ) +
        (digitsToNat ((l.dropWhile isDigitChar).tail.takeWhile isDigitChar) : ℚ) /
          10 ^ ((l.dropWhile isDigitChar).tail.takeWhile isDigitChar).length)
    else none
  else none

/-- Python `float(str)` on plain decimal literals: surrounding whitespace and
one optional sign are accepted; exponent, infinity, nan and underscore forms
are not modelled (none occurs in the data or the tables under study). -/
def parseFloatList (l : List Char) : Option ℚ :=
  if (stripList l).head? = some '-' then
    (parseUnsigned (stripList l).tail).map (fun x => -x)
  else if (stripList l).head? = some '+' then parseUnsigned (stripList l).tail
  else parseUnsigned (stripList l)

def parseFloatStr (s : String) : Option ℚ := parseFloatList s.data

theorem takeWhile_append_of_all {α : Type} (p : α → Bool) (l r : List α)
    (h : ∀ c ∈ l, p c = true) :
    (l ++ r).takeWhile p = l ++ r.takeWhile p := by
  induction l with
  | nil => simp
  | cons c t ih =>
      simp only [List.cons_append, List.takeWhile_cons, h c (by simp), if_true]
      rw [ih (fun x hx => h x (by simp [hx]))]

theorem dropWhile_append_of_all {α : Type} (p : α → Bool) (l r : List α)
    (h : ∀ c ∈ l, p c = true) :
    (l ++ r).dropWhile p = r.dropWhile p := by
  induction l with
  | nil => simp
  | cons c t ih =>
      simp only [List.cons_append, List.dropWhile_cons, h c (by simp)]
      exact ih (fun x hx => h x (by simp [hx]))

theorem takeWhile_eq_self_of_all {α : Type} (p : α → Bool) (l : List α)
    (h : ∀ c ∈ l, p c = true) : l.takeWhile p = l := by
  induction l with
  | nil => simp
  | cons c t ih =>
      simp only [List.takeWhile_cons, h c (by simp), if_true]
      rw [ih (fun x hx => h x (by simp [hx]))]

theorem dropWhile_eq_nil_of_all {α : Type} (p : α → Bool) (l : List α)
    (h : ∀ c ∈ l, p c = true) : l.dropWhile p = [] := by
  induction l with
  | nil => simp
  | cons c t ih =>
      simp only [List.dropWhile_cons, h c (by simp)]
      exact ih (fun x hx => h x (by simp [hx]))

theorem space_cases (c : Char) (h : isSpaceChar c = true) :
    c = ' ' ∨ c = '\t' ∨ c = '\n' ∨ c = '\r' ∨ c = '\x0b' ∨ c = '\x0c' := by
  simp [isSpaceChar] at h
  tauto

theorem isDigitChar_not_space (c : Char) (h : isDigitChar c = true) :
    isSpaceChar c = false := by
  cases hs : isSpaceChar c with
  | false => rfl
  | true =>
      rcases space_cases c hs with h1 | h1 | h1 | h1 | h1 | h1 <;>
        (subst h1; exact absurd h (by decide))

theorem isDigitChar_ne_of (c : Char) (h : isDigitChar c = true) :
    c ≠ '-' ∧ c ≠ '+' ∧ c ≠ '.' := by
  refine ⟨fun he => ?_, fun he => ?_, fun he => ?_⟩ <;>
    (subst he; exact absurd h (by decide))

theorem parseUnsigned_concat (A : Nat) (fp : List Char)
    (hfp : ∀ c ∈ fp, isDigitChar c = true) :
    parseUnsigned (natToDigits A ++ '.' :: fp) =
      some ((A : ℚ) + (digitsToNat fp : ℚ) / 10 ^ fp.length) := by
  have hip := natToDigits_all_digits A
  have htake : (natToDigits A ++ '.' :: fp).takeWhile isDigitChar = natToDigits A := by
    rw [takeWhile_append_of_all _ _ _ hip, List.takeWhile_cons_of_neg (by decide)]
    simp
  have hdrop : (natToDigits A ++ '.' :: fp).dropWhile isDigitChar = '.' :: fp := by
    rw [dropWhile_append_of_all _ _ _ hip, List.dropWhile_cons_of_neg (by decide)]
  rw [parseUnsigned, htake, hdrop]
  rw [if_neg (by simp), if_pos (by simp)]
  simp only [List.tail_cons]
  rw [if_pos ⟨dropWhile_eq_nil_of_all _ _ hfp, fun hc => natToDigits_ne_nil A hc.1⟩]
  rw [takeWhile_eq_self_of_all _ _ hfp, digitsToNat_natToDigits]

theorem renderRat_eq (q : ℚ) (k : Nat) (hk : decExponent q.den = some k) :
    renderRat q = ⟨(if q < 0 then ['-'] else []) ++
      natToDigits (q.num.natAbs * (10 ^ k / q.den) / 10 ^ k) ++
      '.' :: (if k = 0 then ['0']
        else padZeros k (natToDigits (q.num.natAbs * (10 ^ k / q.den) % 10 ^ k)))⟩ := by
  rw [renderRat, hk]

theorem parseUnsigned_render_core (q : ℚ) (k : Nat) (hk : decExponent q.den = some k) :
    parseUnsigned (natToDigits (q.num.natAbs * (10 ^ k / q.den) / 10 ^ k) ++
      '.' :: (if k = 0 then ['0']
        else padZeros k (natToDigits (q.num.natAbs * (10 ^ k / q.den) % 10 ^ k)))) =
      some ((q.num.natAbs : ℚ) / (q.den : ℚ)) := by
  have hd : q.den ∣ 10 ^ k := decExponent_dvd _ _ hk
  have hdpos : 0 < q.den := q.pos
  by_cases h0 : k = 0
  · subst h0
    have hd1 : q.den = 1 := Nat.dvd_one.mp (by simpa using hd)
    rw [if_pos rfl, parseUnsigned_concat _ _ (by intro c hc; simp at hc; subst hc; decide)]
    have h1 : digitsToNat ['0'] = 0 := by decide
    rw [h1, hd1]
    norm_num
  · rw [if_neg h0]
    set n : Nat := q.num.natAbs * (10 ^ k / q.den) with hn
    have hklen : 1 ≤ k := by omega
    have hmod : n % 10 ^ k < 10 ^ k := Nat.mod_lt _ (by positivity)
    have hlen : (padZeros k (natToDigits (n % 10 ^ k))).length = k :=
      padZeros_length _ _ (natToDigits_length_le k _ hmod hklen)
    rw [parseUnsigned_concat _ _ (padZeros_all_digits _ _ (natToDigits_all_digits _))]
    rw [digitsToNat_padZeros, digitsToNat_natToDigits, hlen]
    congr 1
    have hnm : (n / 10 ^ k) * 10 ^ k + n % 10 ^ k = n := by
      rw [mul_comm]
      exact Nat.div_add_mod n (10 ^ k)
    have hsplit : ((n / 10 ^ k : Nat) : ℚ) + ((n % 10 ^ k : Nat) : ℚ) / 10 ^ k
        = (n : ℚ) / 10 ^ k := by
      field_simp
      exact_mod_cast hnm
    rw [hsplit]
    have hcast : ((10 ^ k / q.den : Nat) : ℚ) = (10 ^ k : ℚ) / (q.den : ℚ) := by
      rw [Nat.cast_div hd (by positivity)]
      push_cast
      ring
    have hnq : (n : ℚ) = (q.num.natAbs : ℚ) * ((10 : ℚ) ^ k / (q.den : ℚ)) := by
      rw [hn]
      push_cast [hcast]
      ring
    rw [hnq]
    rw [div_eq_div_iff (by positivity) (by positivity)]
    field_simp

theorem parseFloatList_minus (l : List Char)
    (hnospace : ∀ c ∈ '-' :: l, isSpaceChar c = false) :
    parseFloatList ('-' :: l) = (parseUnsigned l).map (fun x => -x) := by
  rw [parseFloatList, stripList_eq_self_of_no_space _ hnospace]
  have hcond : ('-' :: l).head? = some '-' := rfl
  rw [if_pos hcond]
  rfl

theorem parseFloatList_digits_start (c : Char) (t : List Char)
    (hnospace : ∀ x ∈ c :: t, isSpaceChar x = false)
    (hc : isDigitChar c = true) :
    parseFloatList (c :: t) = parseUnsigned (c :: t) := by
  have hne := isDigitChar_ne_of c hc
  rw [parseFloatList, stripList_eq_self_of_no_space _ hnospace]
  rw [if_neg (by
    intro hcon
    simp only [List.head?_cons, Option.some.injEq] at hcon
    exact hne.1 hcon)]
  rw [if_neg (by
    intro hcon
    simp only [List.head?_cons, Option.some.injEq] at hcon
    exact hne.2.1 hcon)]

theorem renderFp_digits (k m : Nat) :
    ∀ c ∈ (if k = 0 then ['0'] else padZeros k (natToDigits m)),
      isDigitChar c = true := by
  by_cases h0 : k = 0
  · rw [if_pos h0]
    intro c hc
    rw [List.mem_singleton] at hc
    rw [hc]
    decide
  · rw [if_neg h0]
    exact padZeros_all_digits _ _ (natToDigits_all_digits _)

theorem renderCore_nospace (A k m : Nat) :
    ∀ c ∈ natToDigits A ++ '.' ::
        (if k = 0 then ['0'] else padZeros k (natToDigits m)),
      isSpaceChar c = false := by
  intro c hc
  rcases List.mem_append.mp hc with hc | hc
  · exact isDigitChar_not_space c (natToDigits_all_digits A c hc)
  · rcases List.mem_cons.mp hc with hc | hc
    · rw [hc]; decide
    · exact isDigitChar_not_space c (renderFp_digits k m c hc)

set_option maxHeartbeats 1000000 in
theorem parseFloatList_renderRat (q : ℚ) (k : Nat) (hk : decExponent q.den = some k) :
    parseFloatList (renderRat q).data = some q := by
  have hcore := parseUnsigned_render_core q k hk
  rw [renderRat_eq q k hk]
  show parseFloatList ((if q < 0 then ['-'] else []) ++
    natToDigits (q.num.natAbs * (10 ^ k / q.den) / 10 ^ k) ++ '.' ::
    (if k = 0 then ['0']
      else padZeros k (natToDigits (q.num.natAbs * (10 ^ k / q.den) % 10 ^ k)))) = some q
  by_cases hq : q < 0
  · rw [if_pos hq]
    simp only [List.singleton_append, List.cons_append, List.nil_append]
    rw [parseFloatList_minus _ (by
      intro c hc
      rcases List.mem_cons.mp hc with hc | hc
      · rw [hc]; decide
      · exact renderCore_nospace _ k _ c hc)]
    rw [hcore, Option.map_some']
    have hnum : (q.num.natAbs : ℤ) = -q.num :=
      Int.ofNat_natAbs_of_nonpos (le_of_lt (Rat.num_neg.mpr hq))
    have hcast : ((q.num.natAbs : ℚ)) = -(q.num : ℚ) := by
      rw [← Int.cast_natCast, hnum]
      push_cast
      ring
    rw [hcast, neg_div, neg_neg, Rat.num_div_den]
  · rw [if_neg hq]
    simp only [List.nil_append]
    obtain ⟨c, rest, hcr⟩ := List.exists_cons_of_ne_nil
      (natToDigits_ne_nil (q.num.natAbs * (10 ^ k / q.den) / 10 ^ k))
    have hcdig : isDigitChar c = true := by
      apply natToDigits_all_digits (q.num.natAbs * (10 ^ k / q.den) / 10 ^ k)
      rw [hcr]
      simp
    rw [hcr, List.cons_append]
    rw [parseFloatList_digits_start c _ (by
      rw [← List.cons_append, ← hcr]
      exact renderCore_nospace _ k _) hcdig]
    rw [← List.cons_append, ← hcr, hcore]
    have hnum : (q.num.natAbs : ℤ) = q.num :=
      Int.natAbs_of_nonneg (Rat.num_nonneg.mpr (not_lt.mp hq))
    have hcast : ((q.num.natAbs : ℚ)) = (q.num : ℚ) := by
      rw [← Int.cast_natCast, hnum]
    rw [hcast, Rat.num_div_den]

/-- Python `round(x, 2)` written for exact rationals: round half to even at
the second decimal place. -/
def roundHalfEven (x : ℚ) : ℤ :=
  if 2 * (x.num - x.num.fdiv (x.den : ℤ) * (x.den : ℤ)) < (x.den : ℤ) then
    x.num.fdiv (x.den : ℤ)
  else if (x.den : ℤ) < 2 * (x.num - x.num.fdiv (x.den : ℤ) * (x.den : ℤ)) then
    x.num.fdiv (x.den : ℤ) + 1
  else if 2 ∣ x.num.fdiv (x.den : ℤ) then x.num.fdiv (x.den : ℤ)
  else x.num.fdiv (x.den : ℤ) + 1

/-- `x.num.fdiv x.den` is the floor of a rational, so `roundHalfEven`
compares twice the numerator of the fractional part `x - ⌊x⌋` with the
denominator and sends a tie to the even neighbour. -/
theorem roundHalfEven_floor (x : ℚ) : x.num.fdiv (x.den : ℤ) = ⌊x⌋ := by
  rw [Rat.floor_def, Int.fdiv_eq_ediv _ (by positivity)]

def round2 (x : ℚ) : ℚ := (roundHalfEven (x * 100) : ℚ) / 100

theorem roundHalfEven_intCast (m : ℤ) : roundHalfEven (m : ℚ) = m := by
  rw [roundHalfEven]
  simp only [Rat.num_intCast, Rat.den_intCast, Nat.cast_one, Int.fdiv_one, mul_one,
    sub_self, mul_zero]
  rw [if_pos (by norm_num)]

theorem round2_int_div (m : ℤ) : round2 ((m : ℚ) / 100) = (m : ℚ) / 100 := by
  rw [round2]
  have h : (m : ℚ) / 100 * 100 = (m : ℚ) := by field_simp
  rw [h, roundHalfEven_intCast]

theorem round2_eq_int_div (x : ℚ) : ∃ m : ℤ, round2 x = (m : ℚ) / 100 :=
  ⟨roundHalfEven (x * 100), rfl⟩

theorem den_dvd_of_eq_int_div (x : ℚ) (m : ℤ) (h : x = (m : ℚ) / 100) :
    (x.den : ℤ) ∣ 100 := by
  have hx : x = Rat.divInt m 100 := by
    rw [Rat.divInt_eq_div, h]
    norm_num
  rw [hx]
  exact Rat.den_dvd m 100

theorem decExponent_round2 (x : ℚ) : ∃ j, decExponent (round2 x).den = some j := by
  obtain ⟨m, hm⟩ := round2_eq_int_div x
  have hdvd : ((round2 x).den : ℤ) ∣ 100 := den_dvd_of_eq_int_div _ m hm
  have hdvd2 : (round2 x).den ∣ 100 := by exact_mod_cast hdvd
  exact decExponent_some_of_dvd _ 2 (by omega) (by simpa using hdvd2)

theorem parseFloatList_renderRat_round2 (x : ℚ) :
    parseFloatList (renderRat (round2 x)).data = some (round2 x) := by
  obtain ⟨j, hj⟩ := decExponent_round2 x
  exact parseFloatList_renderRat (round2 x) j hj

/-! ### Dates: the five `strptime` formats of `normalize_date` -/

theorem char_le_iff (a b : Char) : a ≤ b ↔ a.toNat ≤ b.toNat := by
  rw [Char.le_def, UInt32.le_def, BitVec.le_def]
  rfl

theorem isDigitChar_iff (c : Char) :
    isDigitChar c = true ↔ 48 ≤ c.toNat ∧ c.toNat ≤ 57 := by
  rw [isDigitChar]
  simp only [Bool.and_eq_true, decide_eq_true_eq]
  rw [char_le_iff, char_le_iff,
    show ('0' : Char).toNat = 48 from rfl, show ('9' : Char).toNat = 57 from rfl]

theorem digitVal_le_9 (c : Char) (h : isDigitChar c = true) : digitVal c ≤ 9 := by
  rw [isDigitChar_iff] at h
  rw [digitVal]
  omega

/-- Value bound for an all-digit list. -/
theorem digitsToNat_lt (l : List Char) (h : ∀ c ∈ l, isDigitChar c = true) :
    digitsToNat l < 10 ^ l.length := by
  suffices hgen : ∀ acc, l.foldl (fun a c => a * 10 + digitVal c) acc <
      (acc + 1) * 10 ^ l.length by
    have := hgen 0
    simpa [digitsToNat] using this
  induction l with
  | nil => intro acc; simp
  | cons c t ih =>
      intro acc
      simp only [List.foldl_cons, List.length_cons]
      have hv : digitVal c ≤ 9 := digitVal_le_9 c (h c (by simp))
      have ht := ih (fun x hx => h x (by simp [hx])) (acc * 10 + digitVal c)
      have hle : (acc * 10 + digitVal c + 1) * 10 ^ t.length ≤
          (acc + 1) * 10 ^ (t.length + 1) := by
        have h1 : acc * 10 + digitVal c + 1 ≤ (acc + 1) * 10 := by omega
        calc (acc * 10 + digitVal c + 1) * 10 ^ t.length
            ≤ (acc + 1) * 10 * 10 ^ t.length := Nat.mul_le_mul_right _ h1
          _ = (acc + 1) * 10 ^ (t.length + 1) := by ring
      omega

/-- Whether a year is a leap year (the `datetime` calendar). -/
def isLeapYear (y : Nat) : Bool :=
  decide ((y % 4 = 0 ∧ ¬ y % 100 = 0) ∨ y % 400 = 0)

/-- Number of days in a month (the `datetime` calendar). -/
def daysInMonth (y m : Nat) : Nat :=
  if m = 2 then (if isLeapYear y then 29 else 28)
  else if m = 4 ∨ m = 6 ∨ m = 9 ∨ m = 11 then 30
  else 31

/-- The validation performed by the `datetime` constructor after the
`strptime` regex has matched: the regex guarantees `m ∈ [1,12]`, `d ∈ [1,31]`
and `y ∈ [0,9999]`; the constructor additionally requires `y ≥ 1` and `d` to
exist in the month. -/
def validDate : Nat × Nat × Nat → Bool
  | (y, m, d) => decide (1 ≤ y ∧ 1 ≤ m ∧ m ≤ 12 ∧ 1 ≤ d ∧ d ≤ daysInMonth y m)

/-- The `strptime` directive `%Y`: exactly four digits. -/
def parseYear4 (l : List Char) : Option (Nat × List Char) :=
  if (l.take 4).length = 4 ∧ ∀ c ∈ l.take 4, isDigitChar c = true then
    some (digitsToNat (l.take 4), l.drop 4)
  else none

/-- A literal character of a `strptime` format. -/
def expectSep (sep : Char) (l : List Char) : Option (List Char) :=
  if l.head? = some sep then some l.tail else none

/-- The `strptime` directive `%m`, compiled to the regex
`1[0-2]|0[1-9]|[1-9]`: candidate parses in alternation order. -/
def monthCands : List Char → List (Nat × List Char)
  | a :: b :: rest =>
      (if a = '1' ∧ '0' ≤ b ∧ b ≤ '2' then [(10 + digitVal b, rest)] else []) ++
      (if a = '0' ∧ '1' ≤ b ∧ b ≤ '9' then [(digitVal b, rest)] else []) ++
      (if '1' ≤ a ∧ a ≤ '9' then [(digitVal a, b :: rest)] else [])
  | [a] => if '1' ≤ a ∧ a ≤ '9' then [(digitVal a, [])] else []
  | [] => []

/-- The `strptime` directive `%d`, compiled to the regex
`3[01]|[12]\d|0[1-9]|[1-9]`: candidate parses in alternation order. -/
def dayCands : List Char → List (Nat × List Char)
  | a :: b :: rest =>
      (if a = '3' ∧ '0' ≤ b ∧ b ≤ '1' then [(30 + digitVal b, rest)] else []) ++
      (if ('1' ≤ a ∧ a ≤ '2') ∧ ('0' ≤ b ∧ b ≤ '9') then
        [(10 * digitVal a + digitVal b, rest)] else []) ++
      (if a = '0' ∧ '1' ≤ b ∧ b ≤ '9' then [(digitVal b, rest)] else []) ++
      (if '1' ≤ a ∧ a ≤ '9' then [(digitVal a, b :: rest)] else [])
  | [a] => if '1' ≤ a ∧ a ≤ '9' then [(digitVal a, [])] else []
  | [] => []

/-- Regex backtracking over an ordered candidate list: the first candidate
whose continuation succeeds wins. -/
def tryCands {α : Type} : List (Nat × List Char) → (Nat → List Char → Option α) → Option α
  | [], _ => none
  | (v, rest) :: more, f =>
      match f v rest with
      | some r => some r
      | none => tryCands more f

/-- Format `%Y<sep>%m<sep>%d` (used with `-` and `/`). -/
def parseYMD (sep : Char) (l : List Char) : Option (Nat × Nat × Nat) :=
  (parseYear4 l).bind (fun yr =>
    (expectSep sep yr.2).bind (fun r2 =>
      tryCands (monthCands r2) (fun m r3 =>
        (expectSep sep r3).bind (fun r4 =>
          tryCands (dayCands r4) (fun d r5 =>
            if r5 = [] then some (yr.1, m, d) else none)))))

/-- Format `%d<sep>%m<sep>%Y` (used with `-`, `/` and `.`). -/
def parseDMY (sep : Char) (l : List Char) : Option (Nat × Nat × Nat) :=
  tryCands (dayCands l) (fun d r1 =>
    (expectSep sep r1).bind (fun r2 =>
      tryCands (monthCands r2) (fun m r3 =>
        (expectSep sep r3).bind (fun r4 =>
          (parseYear4 r4).bind (fun yr =>
            if yr.2 = [] then some (yr.1, m, d) else none)))))

/-- One `strptime` attempt: regex match, then `datetime` validation; an
invalid date raises `ValueError`, which `normalize_date` treats the same as
a non-match. -/
def checkFormat (p : List Char → Option (Nat × Nat × Nat)) (l : List Char) :
    Option (Nat × Nat × Nat) :=
  (p l).bind (fun t => if validDate t then some t else none)

def firstSome {α : Type} : List (Option α) → Option α
  | [] => none
  | some a :: _ => some a
  | none :: rest => firstSome rest

/-- The format list of `normalize_date`, in source order. -/
def dateFormats : List (List Char → Option (Nat × Nat × Nat)) :=
  [parseYMD '-', parseDMY '-', parseDMY '/', parseDMY '.', parseYMD '/']

/-- Try the five formats in order, as the `for fmt in formats` loop does. -/
def parseAnyDate (l : List Char) : Option (Nat × Nat × Nat) :=
  firstSome (dateFormats.map (fun p => checkFormat p l))

/-- `strftime` zero-padded two-digit field (`%m`, `%d`). -/
def pad2 (n : Nat) : List Char := padZeros 2 (natToDigits n)

/-- `strftime` zero-padded year field (`%Y`, zero-padded per the `strftime`
format documentation). -/
def pad4 (n : Nat) : List Char := padZeros 4 (natToDigits n)

/-- `dt.strftime('%Y-%m-%d')`. -/
def formatISO : Nat × Nat × Nat → List Char
  | (y, m, d) => pad4 y ++ ('-' :: (pad2 m ++ ('-' :: pad2 d)))

/-- The body of `normalize_date` on a non-null string: strip, try the five
formats, return the reformatted date on success and the stripped original
otherwise. -/
def processDate (l : List Char) : List Char :=
  match parseAnyDate (stripList l) with
  | some t => formatISO t
  | none => stripList l

/-- `normalize_date`: `NaN` is returned unchanged; any other cell is
stringified and processed. -/
def normalizeDate (v : Value) : Value :=
  match v with
  | .null => .null
  | .str s => .str ⟨processDate s.data⟩
  | .num q => .str ⟨processDate (renderRat q).data⟩

theorem digitChar_cmp : ∀ x < 10,
    ('0' ≤ digitChar x) ∧ (digitChar x ≤ '9') ∧
    ((digitChar x ≤ '1') ↔ x ≤ 1) ∧ ((digitChar x ≤ '2') ↔ x ≤ 2) ∧
    (('1' ≤ digitChar x) ↔ 1 ≤ x) ∧ ((digitChar x = '0') ↔ x = 0) ∧
    ((digitChar x = '1') ↔ x = 1) ∧ ((digitChar x = '3') ↔ x = 3) := by decide

theorem natToDigits_one_digit (n : Nat) (h : n < 10) :
    natToDigits n = [digitChar n] := by
  rw [natToDigits, natDigitsRev_eq, if_pos h]
  rfl

theorem natToDigits_two_digit (n : Nat) (h1 : 10 ≤ n) (h2 : n < 100) :
    natToDigits n = [digitChar (n / 10), digitChar (n % 10)] := by
  rw [natToDigits, natDigitsRev_eq, if_neg (by omega), natDigitsRev_eq,
    if_pos (by omega)]
  rfl

theorem pad2_small (m : Nat) (h : m < 10) : pad2 m = ['0', digitChar m] := by
  rw [pad2, natToDigits_one_digit m h]
  rfl

theorem pad2_large (m : Nat) (h1 : 10 ≤ m) (h2 : m < 100) :
    pad2 m = [digitChar (m / 10), digitChar (m % 10)] := by
  rw [pad2, natToDigits_two_digit m h1 h2]
  rfl

theorem pad4_eq (y : Nat) (h : y ≤ 9999) :
    (pad4 y).length = 4 ∧ (∀ c ∈ pad4 y, isDigitChar c = true) ∧
    digitsToNat (pad4 y) = y :=
  ⟨padZeros_length _ _ (natToDigits_length_le 4 y (by omega) (by omega)),
   padZeros_all_digits _ _ (natToDigits_all_digits y),
   by rw [pad4, digitsToNat_padZeros, digitsToNat_natToDigits]⟩

theorem parseYear4_pad4 (y : Nat) (h : y ≤ 9999) (rest : List Char) :
    parseYear4 (pad4 y ++ rest) = some (y, rest) := by
  obtain ⟨hlen, hdig, hval⟩ := pad4_eq y h
  have htake : (pad4 y ++ rest).take 4 = pad4 y := List.take_left' hlen
  have hdrop : (pad4 y ++ rest).drop 4 = rest := List.drop_left' hlen
  rw [parseYear4, htake, hdrop, if_pos ⟨hlen, hdig⟩, hval]

theorem expectSep_cons (sep : Char) (l : List Char) :
    expectSep sep (sep :: l) = some l := by
  rw [expectSep]
  have hcond : (sep :: l).head? = some sep := rfl
  rw [if_pos hcond]
  rfl

theorem monthCands_pad2_small (m : Nat) (h1 : 1 ≤ m) (hm : m < 10)
    (rest : List Char) : monthCands (pad2 m ++ rest) = [(m, rest)] := by
  rw [pad2_small m hm]
  have hc := digitChar_cmp m hm
  have hf := digitChar_facts m hm
  show monthCands ('0' :: digitChar m :: rest) = [(m, rest)]
  rw [monthCands]
  rw [if_neg (fun hcon => absurd hcon.1 (by decide)),
    if_pos ⟨rfl, hc.2.2.2.2.1.mpr h1, hc.2.1⟩,
    if_neg (fun hcon => absurd hcon.1 (by decide))]
  simp [hf.2.1]

theorem monthCands_pad2_large (m : Nat) (h1 : 10 ≤ m) (h2 : m ≤ 12)
    (rest : List Char) :
    monthCands (pad2 m ++ rest) =
      [(m, rest), (1, digitChar (m % 10) :: rest)] := by
  rw [pad2_large m h1 (by omega)]
  have hdiv : m / 10 = 1 := by omega
  rw [hdiv]
  have hmod : m % 10 < 10 := by omega
  have hc := digitChar_cmp (m % 10) hmod
  have hf := digitChar_facts (m % 10) hmod
  have h1c : digitChar 1 = '1' := by decide
  rw [h1c]
  show monthCands ('1' :: digitChar (m % 10) :: rest) = _
  rw [monthCands]
  rw [if_pos ⟨rfl, hc.1, hc.2.2.2.1.mpr (by omega)⟩,
    if_neg (fun hcon => absurd hcon.1 (by decide)),
    if_pos ⟨by decide, by decide⟩]
  have hv1 : digitVal '1' = 1 := by decide
  simp [hf.2.1, hv1]
  omega

theorem dayCands_pad2_small (d : Nat) (h1 : 1 ≤ d) (hd : d < 10)
    (rest : List Char) : dayCands (pad2 d ++ rest) = [(d, rest)] := by
  rw [pad2_small d hd]
  have hc := digitChar_cmp d hd
  have hf := digitChar_facts d hd
  show dayCands ('0' :: digitChar d :: rest) = [(d, rest)]
  rw [dayCands]
  rw [if_neg (fun hcon => absurd hcon.1 (by decide)),
    if_neg (fun hcon => absurd hcon.1.1 (by decide)),
    if_pos ⟨rfl, hc.2.2.2.2.1.mpr h1, hc.2.1⟩,
    if_neg (fun hcon => absurd hcon.1 (by decide))]
  simp [hf.2.1]

theorem dayCands_pad2_mid (d : Nat) (h1 : 10 ≤ d) (h2 : d ≤ 29)
    (rest : List Char) :
    dayCands (pad2 d ++ rest) =
      [(d, rest), (d / 10, digitChar (d % 10) :: rest)] := by
  rw [pad2_large d h1 (by omega)]
  have hdivlt : d / 10 < 10 := by omega
  have hmodlt : d % 10 < 10 := by omega
  have hcd := digitChar_cmp (d / 10) hdivlt
  have hcm := digitChar_cmp (d % 10) hmodlt
  have hfd := digitChar_facts (d / 10) hdivlt
  have hfm := digitChar_facts (d % 10) hmodlt
  show dayCands (digitChar (d / 10) :: digitChar (d % 10) :: rest) = _
  rw [dayCands]
  rw [if_neg (fun hcon => absurd (hcd.2.2.2.2.2.2.2.mp hcon.1) (by omega)),
    if_pos ⟨⟨hcd.2.2.2.2.1.mpr (by omega), hcd.2.2.2.1.mpr (by omega)⟩,
      hcm.1, hcm.2.1⟩,
    if_neg (fun hcon => absurd (hcd.2.2.2.2.2.1.mp hcon.1) (by omega)),
    if_pos ⟨hcd.2.2.2.2.1.mpr (by omega), hcd.2.1⟩]
  simp [hfd.2.1, hfm.2.1]
  omega

theorem dayCands_pad2_big (d : Nat) (h1 : 30 ≤ d) (h2 : d ≤ 31)
    (rest : List Char) :
    dayCands (pad2 d ++ rest) =
      [(d, rest), (3, digitChar (d % 10) :: rest)] := by
  rw [pad2_large d (by omega) (by omega)]
  have hdiv : d / 10 = 3 := by omega
  rw [hdiv]
  have hmodlt : d % 10 < 10 := by omega
  have hcm := digitChar_cmp (d % 10) hmodlt
  have hfm := digitChar_facts (d % 10) hmodlt
  have h3c : digitChar 3 = '3' := by decide
  rw [h3c]
  show dayCands ('3' :: digitChar (d % 10) :: rest) = _
  rw [dayCands]
  rw [if_pos ⟨rfl, hcm.1, hcm.2.2.1.mpr (by omega)⟩,
    if_neg (fun hcon => absurd hcon.1.2 (by decide)),
    if_neg (fun hcon => absurd hcon.1 (by decide)),
    if_pos ⟨by decide, by decide⟩]
  have hv3 : digitVal '3' = 3 := by decide
  simp [hfm.2.1, hv3]
  omega

theorem tryCands_cons_some {α : Type} (v : Nat) (rest : List Char)
    (tail : List (Nat × List Char)) (f : Nat → List Char → Option α) (r : α)
    (h : f v rest = some r) : tryCands ((v, rest) :: tail) f = some r := by
  simp [tryCands, h]

theorem daysInMonth_le (y m : Nat) : daysInMonth y m ≤ 31 := by
  rw [daysInMonth]
  split_ifs <;> omega

theorem parseYMD_format (y m d : Nat) (hy : y ≤ 9999) (hm1 : 1 ≤ m)
    (hm2 : m ≤ 12) (hd1 : 1 ≤ d) (hd2 : d ≤ 31) :
    parseYMD '-' (formatISO (y, m, d)) = some (y, m, d) := by
  rw [formatISO, parseYMD, parseYear4_pad4 y hy, Option.some_bind]
  show (expectSep '-' ('-' :: (pad2 m ++ ('-' :: pad2 d)))).bind _ = _
  rw [expectSep_cons, Option.some_bind]
  have hday : tryCands (dayCands (pad2 d))
      (fun d2 r5 => if r5 = [] then some (y, m, d2) else none) = some (y, m, d) := by
    by_cases hd10 : d < 10
    · have := dayCands_pad2_small d hd1 hd10 []
      rw [List.append_nil] at this
      rw [this]
      exact tryCands_cons_some _ _ _ _ _ (if_pos rfl)
    · by_cases hd30 : d ≤ 29
      · have := dayCands_pad2_mid d (by omega) hd30 []
        rw [List.append_nil] at this
        rw [this]
        exact tryCands_cons_some _ _ _ _ _ (if_pos rfl)
      · have := dayCands_pad2_big d (by omega) hd2 []
        rw [List.append_nil] at this
        rw [this]
        exact tryCands_cons_some _ _ _ _ _ (if_pos rfl)
  have hmonth : ∀ r3, r3 = '-' :: pad2 d →
      ((expectSep '-' r3).bind (fun r4 => tryCands (dayCands r4)
        (fun d2 r5 => if r5 = [] then some (y, m, d2) else none))) = some (y, m, d) := by
    intro r3 hr3
    rw [hr3, expectSep_cons, Option.some_bind, hday]
  by_cases hm10 : m < 10
  · rw [monthCands_pad2_small m hm1 hm10]
    exact tryCands_cons_some _ _ _ _ _ (hmonth _ rfl)
  · rw [monthCands_pad2_large m (by omega) hm2]
    exact tryCands_cons_some _ _ _ _ _ (hmonth _ rfl)

theorem validDate_iff (y m d : Nat) :
    validDate (y, m, d) = true ↔
      (1 ≤ y ∧ 1 ≤ m ∧ m ≤ 12 ∧ 1 ≤ d ∧ d ≤ daysInMonth y m) := by
  rw [validDate]
  exact decide_eq_true_iff

theorem parseAnyDate_format (y m d : Nat) (hy1 : 1 ≤ y) (hy : y ≤ 9999)
    (hm1 : 1 ≤ m) (hm2 : m ≤ 12) (hd1 : 1 ≤ d) (hd2 : d ≤ daysInMonth y m) :
    parseAnyDate (formatISO (y, m, d)) = some (y, m, d) := by
  have hd31 : d ≤ 31 := le_trans hd2 (daysInMonth_le y m)
  have h1 : checkFormat (parseYMD '-') (formatISO (y, m, d)) = some (y, m, d) := by
    rw [checkFormat, parseYMD_format y m d hy hm1 hm2 hd1 hd31, Option.some_bind,
      if_pos ((validDate_iff y m d).mpr ⟨hy1, hm1, hm2, hd1, hd2⟩)]
  rw [parseAnyDate, dateFormats]
  simp only [List.map_cons]
  rw [h1]
  rfl

theorem parseYear4_bound (l : List Char) (y : Nat) (r : List Char)
    (h : parseYear4 l = some (y, r)) : y < 10000 := by
  rw [parseYear4] at h
  by_cases hc : (l.take 4).length = 4 ∧ ∀ c ∈ l.take 4, isDigitChar c = true
  · rw [if_pos hc] at h
    have h2 := Option.some.inj h
    have hy : digitsToNat (l.take 4) = y := congrArg Prod.fst h2
    have hlt := digitsToNat_lt (l.take 4) hc.2
    rw [hc.1] at hlt
    rw [← hy]
    simpa using hlt
  · rw [if_neg hc] at h
    simp at h

theorem tryCands_some {α : Type} (cands : List (Nat × List Char))
    (f : Nat → List Char → Option α) (r : α) (h : tryCands cands f = some r) :
    ∃ p ∈ cands, f p.1 p.2 = some r := by
  induction cands with
  | nil => simp [tryCands] at h
  | cons p more ih =>
      obtain ⟨v, rest⟩ := p
      rw [tryCands] at h
      split at h
      · rename_i r2 heq
        cases h
        exact ⟨(v, rest), by simp, heq⟩
      · obtain ⟨p2, hp2, hfp2⟩ := ih h
        exact ⟨p2, by simp [hp2], hfp2⟩

theorem parseYMD_year_lt (sep : Char) (l : List Char) (t : Nat × Nat × Nat)
    (h : parseYMD sep l = some t) : t.1 < 10000 := by
  rw [parseYMD] at h
  cases hy : parseYear4 l with
  | none => rw [hy] at h; simp at h
  | some yr =>
      obtain ⟨y0, r0⟩ := yr
      rw [hy, Option.some_bind] at h
      cases he : expectSep sep (y0, r0).2 with
      | none => rw [he] at h; simp at h
      | some r2 =>
          rw [he, Option.some_bind] at h
          obtain ⟨p, hp, hfp⟩ := tryCands_some _ _ _ h
          cases he2 : expectSep sep p.2 with
          | none => rw [he2] at hfp; simp at hfp
          | some r4 =>
              rw [he2, Option.some_bind] at hfp
              obtain ⟨p2, hp2, hfp2⟩ := tryCands_some _ _ _ hfp
              by_cases hr5 : p2.2 = []
              · rw [if_pos hr5] at hfp2
                cases hfp2
                exact parseYear4_bound l y0 r0 hy
              · rw [if_neg hr5] at hfp2
                simp at hfp2

theorem parseDMY_year_lt (sep : Char) (l : List Char) (t : Nat × Nat × Nat)
    (h : parseDMY sep l = some t) : t.1 < 10000 := by
  rw [parseDMY] at h
  obtain ⟨p, hp, hfp⟩ := tryCands_some _ _ _ h
  cases he : expectSep sep p.2 with
  | none => rw [he] at hfp; simp at hfp
  | some r2 =>
      rw [he, Option.some_bind] at hfp
      obtain ⟨p2, hp2, hfp2⟩ := tryCands_some _ _ _ hfp
      cases he2 : expectSep sep p2.2 with
      | none => rw [he2] at hfp2; simp at hfp2
      | some r4 =>
          rw [he2, Option.some_bind] at hfp2
          cases hy : parseYear4 r4 with
          | none => rw [hy] at hfp2; simp at hfp2
          | some yr =>
              obtain ⟨y0, r0⟩ := yr
              rw [hy, Option.some_bind] at hfp2
              by_cases hr5 : (y0, r0).2 = []
              · rw [if_pos hr5] at hfp2
                cases hfp2
                exact parseYear4_bound r4 y0 r0 hy
              · rw [if_neg hr5] at hfp2
                simp at hfp2

theorem checkFormat_some (p : List Char → Option (Nat × Nat × Nat)) (l : List Char)
    (t : Nat × Nat × Nat) (h : checkFormat p l = some t) :
    p l = some t ∧ validDate t = true := by
  rw [checkFormat] at h
  cases hp : p l with
  | none => rw [hp] at h; simp at h
  | some t2 =>
      rw [hp, Option.some_bind] at h
      by_cases hv : validDate t2 = true
      · rw [if_pos hv] at h
        have ht := Option.some.inj h
        subst ht
        exact ⟨rfl, hv⟩
      · rw [if_neg hv] at h
        simp at h

theorem firstSome_mem {α : Type} (l : List (Option α)) (a : α)
    (h : firstSome l = some a) : some a ∈ l := by
  induction l with
  | nil => simp [firstSome] at h
  | cons o rest ih =>
      cases o with
      | some b =>
          rw [firstSome] at h
          cases h
          simp
      | none =>
          rw [firstSome] at h
          simp [ih h]

theorem parseAnyDate_props (l : List Char) (t : Nat × Nat × Nat)
    (h : parseAnyDate l = some t) : validDate t = true ∧ t.1 < 10000 := by
  rw [parseAnyDate, dateFormats] at h
  simp only [List.map_cons, List.map_nil] at h
  have hmem := firstSome_mem _ _ h
  simp only [List.mem_cons, List.not_mem_nil, or_false] at hmem
  rcases hmem with hm | hm | hm | hm | hm
  · obtain ⟨hp, hv⟩ := checkFormat_some _ _ _ hm.symm
    exact ⟨hv, parseYMD_year_lt '-' l t hp⟩
  · obtain ⟨hp, hv⟩ := checkFormat_some _ _ _ hm.symm
    exact ⟨hv, parseDMY_year_lt '-' l t hp⟩
  · obtain ⟨hp, hv⟩ := checkFormat_some _ _ _ hm.symm
    exact ⟨hv, parseDMY_year_lt '/' l t hp⟩
  · obtain ⟨hp, hv⟩ := checkFormat_some _ _ _ hm.symm
    exact ⟨hv, parseDMY_year_lt '.' l t hp⟩
  · obtain ⟨hp, hv⟩ := checkFormat_some _ _ _ hm.symm
    exact ⟨hv, parseYMD_year_lt '/' l t hp⟩

theorem formatISO_no_space (t : Nat × Nat × Nat) :
    ∀ c ∈ formatISO t, isSpaceChar c = false := by
  obtain ⟨y, m, d⟩ := t
  intro c hc
  rw [formatISO] at hc
  simp only [List.mem_append, List.mem_cons] at hc
  rcases hc with hc | hc | hc | hc | hc
  · exact isDigitChar_not_space c (padZeros_all_digits _ _ (natToDigits_all_digits y) c hc)
  · rw [hc]; decide
  · exact isDigitChar_not_space c (padZeros_all_digits _ _ (natToDigits_all_digits m) c hc)
  · rw [hc]; decide
  · exact isDigitChar_not_space c (padZeros_all_digits _ _ (natToDigits_all_digits d) c hc)

theorem processDate_processDate (l : List Char) :
    processDate (processDate l) = processDate l := by
  cases h : parseAnyDate (stripList l) with
  | none =>
      have h1 : processDate l = stripList l := by rw [processDate, h]
      rw [h1, processDate, stripList_stripList, h]
  | some t =>
      obtain ⟨hv, hy⟩ := parseAnyDate_props _ _ h
      obtain ⟨y, m, d⟩ := t
      rw [validDate_iff] at hv
      have hy2 : y < 10000 := hy
      have h1 : processDate l = formatISO (y, m, d) := by rw [processDate, h]
      rw [h1, processDate,
        stripList_eq_self_of_no_space _ (formatISO_no_space (y, m, d)),
        parseAnyDate_format y m d hv.1 (by omega) hv.2.1 hv.2.2.1 hv.2.2.2.1 hv.2.2.2.2]

/-- `normalize_date` is idempotent on every cell value. -/
theorem normalizeDate_normalizeDate (v : Value) :
    normalizeDate (normalizeDate v) = normalizeDate v := by
  cases v with
  | null => rfl
  | str s =>
      show Value.str ⟨processDate (String.mk (processDate s.data)).data⟩ = _
      rw [show (String.mk (processDate s.data)).data = processDate s.data from rfl,
        processDate_processDate]
      rfl
  | num q =>
      show Value.str ⟨processDate (String.mk (processDate (renderRat q).data)).data⟩ = _
      rw [show (String.mk (processDate (renderRat q).data)).data
            = processDate (renderRat q).data from rfl,
        processDate_processDate]
      rfl

/-! ### `normalize_duration` -/

/-- Regex `(\d+)<sep>(\d+)` anchored at the start (`re.match`), trailing
text ignored; faithful for a non-digit separator, where greedy matching
cannot be saved by backtracking. -/
def matchHMM (sep : Char) (l : List Char) : Option (Nat × Nat) :=
  if l.takeWhile isDigitChar = [] then none
  else if (l.dropWhile isDigitChar).head? = some sep then
    if (l.dropWhile isDigitChar).tail.takeWhile isDigitChar = [] then none
    else some (digitsToNat (l.takeWhile isDigitChar),
      digitsToNat ((l.dropWhile isDigitChar).tail.takeWhile isDigitChar))
  else none

/-- Regex `(\d+)\s*heures?\s*(\d+)\s*min` anchored at the start. -/
def matchHeures (l : List Char) : Option (Nat × Nat) :=
  if l.takeWhile isDigitChar = [] then none
  else
    let r2 := (l.dropWhile isDigitChar).dropWhile isSpaceChar
    if r2.take 5 = ['h','e','u','r','e'] then
      let r3 := r2.drop 5
      let r4 := if r3.head? = some 's' then r3.tail else r3
      let r5 := r4.dropWhile isSpaceChar
      if r5.takeWhile isDigitChar = [] then none
      else
        let r6 := ((r5.dropWhile isDigitChar).dropWhile isSpaceChar)
        if r6.take 3 = ['m','i','n'] then
          some (digitsToNat (l.takeWhile isDigitChar),
            digitsToNat (r5.takeWhile isDigitChar))
        else none
    else none

/-- `str.replace` for a pattern `p0 :: ps`, non-overlapping and left to
right, with explicit fuel so that the kernel can evaluate it; `replaceSub`
supplies enough fuel. -/
def replaceSubAux (p0 : Char) (ps rep : List Char) : Nat → List Char → List Char
  | 0, l => l
  | _, [] => []
  | fuel + 1, c :: rest =>
      if (p0 :: ps).isPrefixOf (c :: rest) then
        rep ++ replaceSubAux p0 ps rep fuel (rest.drop ps.length)
      else c :: replaceSubAux p0 ps rep fuel rest

/-- `str.replace` for a pattern `p0 :: ps`: non-overlapping, left to right. -/
def replaceSub (p0 : Char) (ps rep : List Char) (l : List Char) : List Char :=
  replaceSubAux p0 ps rep l.length l

/-- `re.sub(r'\s+', ' ', s)` one character at a time: the Boolean state
says whether the previous character was whitespace, so that each whitespace
run contributes a single space. -/
def collapseAux : Bool → List Char → List Char
  | _, [] => []
  | prevSpace, c :: rest =>
      if isSpaceChar c then
        (if prevSpace then [] else [' ']) ++ collapseAux true rest
      else c :: collapseAux false rest

/-- `re.sub(r'\s+', ' ', s)`: collapse every whitespace run to one space. -/
def collapseSpaces (l : List Char) : List Char := collapseAux false l

/-- The double-decimal-point repair of `normalize_duration`
(`33.0.25 -> 33.25`), with a flag telling whether a repair was logged. -/
def repairDouble (t : List Char) : List Char × Bool :=
  if 1 < t.count '.' ∧ (t.splitOn '.').length = 3 ∧
      (t.splitOn '.').get? 1 = some ['0'] then
    (((t.splitOn '.').get? 0).getD [] ++ '.' :: ((t.splitOn '.').get? 2).getD [],
     true)
  else (t, false)

/-- Strategy 1: direct float parse (after the double-dot repair). -/
def strat1 (t : List Char) : Option ℚ := (parseFloatList t).map round2

/-- Strategies 2 and 4 (and the dead repetition of 2): `"41h45"`, `"9:45"`. -/
def stratSep (sep : Char) (t : List Char) : Option ℚ :=
  (matchHMM sep t).map (fun p => round2 ((p.1 : ℚ) + (p.2 : ℚ) / 60))

/-- Strategy 3: `"13 heures 30 min"`. -/
def stratHeures (t : List Char) : Option ℚ :=
  (matchHeures t).map (fun p => round2 ((p.1 : ℚ) + (p.2 : ℚ) / 60))

/-- Strategy 5: float parse after replacing `,` by `.`. -/
def strat5 (t : List Char) : Option ℚ :=
  (parseFloatList (replaceSub ',' [] ['.'] t)).map round2

/-- The strategies of `normalize_duration` in source order, including the
unreachable second copy of the `(\d+)h(\d+)` pattern at source line 136. -/
def durationStrats (t : List Char) : List (Option ℚ) :=
  [strat1 t, stratSep 'h' t, stratHeures t, stratSep ':' t, stratSep 'h' t,
   strat5 t]

def repairMsg (t : List Char) : String :=
  "Correction durée invalide : " ++ String.mk t

def warnMsg (t : List Char) : String :=
  "[WARNING] Duree non reconnue : " ++ String.mk t

/-- The log entry produced by the double-dot repair, if one happened. -/
def durationRepairLog (r : List Char × Bool) : List String :=
  if r.2 then [repairMsg r.1] else []

/-- Body of `normalize_duration` on a non-null cell: strip, repair a double
decimal point, try the strategies in order, fall back to `0.0` plus a
warning log entry. -/
def processDuration (l0 : List Char) : ℚ × List String :=
  match firstSome (durationStrats (repairDouble (stripList l0)).1) with
  | some q => (q, durationRepairLog (repairDouble (stripList l0)))
  | none => (0, durationRepairLog (repairDouble (stripList l0)) ++
      [warnMsg (repairDouble (stripList l0)).1])

/-- `normalize_duration`, with the entries it appends to `changes_log`. -/
def normalizeDurationLog (v : Value) : ℚ × List String :=
  match v with
  | .null => (0, [])
  | .str s => processDuration s.data
  | .num q => processDuration (renderRat q).data

/-- `normalize_duration` seen as a cell transformation. -/
def normalizeDuration (v : Value) : Value := .num (normalizeDurationLog v).1

/-! ### `normalize_technician` and `normalize_fault_type` -/

/-- The `technician_mapping` dictionary, in source order. -/
def technicianMapping : List (String × String) :=
  [("marie simon", "Marie Simon"),
   ("marie SIMON", "Marie Simon"),
   ("sophie bernard", "Sophie Bernard"),
   ("s.bernard", "Sophie Bernard"),
   ("S.Bernard", "Sophie Bernard"),
   ("alexandre petit", "Alexandre Petit"),
   ("a. petit", "Alexandre Petit"),
   ("A. PETIT", "Alexandre Petit"),
   ("pierre rodriguez", "Pierre Rodriguez"),
   ("rodriguez", "Pierre Rodriguez"),
   ("RODRIGUEZ", "Pierre Rodriguez"),
   ("nicolas michel", "Nicolas Michel"),
   ("n.michel", "Nicolas Michel"),
   ("N.Michel", "Nicolas Michel"),
   ("thomas laurent", "Thomas Laurent"),
   ("t.laurent", "Thomas Laurent"),
   ("T.Laurent", "Thomas Laurent"),
   ("julie moreau", "Julie Moreau"),
   ("julie MOREAU", "Julie Moreau"),
   ("martin dupont", "Martin Dupont"),
   ("m. dupont", "Martin Dupont"),
   ("M. Dupont", "Martin Dupont"),
   ("isabelle garcia", "Isabelle Garcia"),
   ("i. garcia", "Isabelle Garcia"),
   ("I. Garcia", "Isabelle Garcia"),
   ("céline lefebvre", "Céline Lefebvre"),
   ("celine lefebvre", "Céline Lefebvre"),
   ("Celine Lefebvre", "Céline Lefebvre")]

/-- Body of `normalize_technician` on a non-null cell: strip, look the
lowercased name up in the mapping, else title-case. -/
def processTechnician (l : List Char) : List Char :=
  match alookup technicianMapping (String.mk ((stripList l).map charToLower)) with
  | some v => v.data
  | none => titleAux false (stripList l)

def normalizeTechnician (v : Value) : Value :=
  match v with
  | .null => .null
  | .str s => .str ⟨processTechnician s.data⟩
  | .num q => .str ⟨processTechnician (renderRat q).data⟩

/-- The `fault_mapping` dictionary, in source order. -/
def faultMapping : List (String × String) :=
  [("surchauffe", "Surchauffe"),
   ("SURCHAUFFE", "Surchauffe"),
   ("défaut capteur", "Défaut Capteur"),
   ("defaut capteur", "Défaut Capteur"),
   ("Défaut capteur", "Défaut Capteur"),
   ("panne electrique", "Panne Électrique"),
   ("panne électrique", "Panne Électrique"),
   ("Panne Electrique", "Panne Électrique"),
   ("PANNE ELECTRIQUE", "Panne Électrique"),
   ("panne hydraulique", "Panne Hydraulique"),
   ("PANNE HYDRAULIQUE", "Panne Hydraulique"),
   ("panne pneumatique", "Panne Pneumatique"),
   ("PANNE PNEUMATIQUE", "Panne Pneumatique"),
   ("panne mécanique", "Panne Mécanique"),
   ("panne mecanique", "Panne Mécanique"),
   ("Panne Mecanique", "Panne Mécanique"),
   ("vibration anormale", "Vibrations Anormales"),
   ("vibrations anormales", "Vibrations Anormales"),
   ("Vibration Anormale", "Vibrations Anormales"),
   ("usure normale", "Usure Normale"),
   ("Usure normale", "Usure Normale"),
   ("usure Normale", "Usure Normale"),
   ("fuite", "Fuite"),
   ("fuites", "Fuite"),
   ("Fuites", "Fuite"),
   ("défaut lubrification", "Défaut Lubrification"),
   ("defaut lubrification", "Défaut Lubrification"),
   ("Def. Lubrification", "Défaut Lubrification"),
   ("Défaut Lubrification", "Défaut Lubrification")]

/-- Body of `normalize_fault_type` on a non-null, non-empty cell. -/
def processFault (l : List Char) : List Char :=
  if l = [] then []
  else
    match alookup faultMapping (String.mk ((stripList l).map charToLower)) with
    | some v => v.data
    | none => titleAux false (stripList l)

/-- `normalize_fault_type`: a missing or empty cell becomes the empty
string. -/
def normalizeFaultType (v : Value) : Value :=
  match v with
  | .null => .str ""
  | .str s => .str ⟨processFault s.data⟩
  | .num q => .str ⟨processFault (renderRat q).data⟩

/-! ### `normalize_parts` -/

/-- Body of `normalize_parts` on a non-null cell: strip, map empty markers
to `Aucune`, unify separators, collapse whitespace runs. -/
def processParts (l : List Char) : List Char :=
  let p := stripList l
  if p = [] ∨ p = "N/A".data ∨ p = ['-'] ∨ p = "n/a".data ∨ p = "NA".data then
    "Aucune".data
  else
    collapseSpaces
      (replaceSub ' ' "| ".data ", ".data
        (replaceSub ' ' "- ".data ", ".data
          (replaceSub ' ' "/ ".data ", ".data
            (replaceSub ';' [] [','] p))))

/-- `normalize_parts`: a missing cell becomes `Aucune`. -/
def normalizeParts (v : Value) : Value :=
  match v with
  | .null => .str "Aucune"
  | .str s => .str ⟨processParts s.data⟩
  | .num q => .str ⟨processParts (renderRat q).data⟩

/-! ### Idempotence of the technician, fault and duration normalizers -/

theorem technicianMapping_values : ∀ p ∈ technicianMapping,
    stripList p.2.data = p.2.data ∧
    alookup technicianMapping (String.mk (p.2.data.map charToLower)) = some p.2 := by
  decide

theorem processTechnician_processTechnician (l : List Char) :
    processTechnician (processTechnician l) = processTechnician l := by
  cases hl : alookup technicianMapping (String.mk ((stripList l).map charToLower)) with
  | some v =>
      have hv : stripList v.data = v.data ∧
          alookup technicianMapping (String.mk (v.data.map charToLower)) = some v := by
        rcases alookup_cases technicianMapping
            (String.mk ((stripList l).map charToLower)) with h0 | ⟨b, hb, hmem⟩
        · rw [h0] at hl; cases hl
        · rw [hb] at hl
          cases hl
          exact technicianMapping_values _ hmem
      have h1 : processTechnician l = v.data := by rw [processTechnician, hl]
      rw [h1, processTechnician, hv.1, hv.2]
  | none =>
      have h1 : processTechnician l = titleAux false (stripList l) := by
        rw [processTechnician, hl]
      rw [h1, processTechnician, stripList_titleAux_stripList,
        map_charToLower_titleAux (stripList l) false, hl, titleAux_titleAux]

/-- `normalize_technician` is idempotent on every cell value. -/
theorem normalizeTechnician_normalizeTechnician (v : Value) :
    normalizeTechnician (normalizeTechnician v) = normalizeTechnician v := by
  cases v with
  | null => rfl
  | str s =>
      show Value.str ⟨processTechnician (String.mk (processTechnician s.data)).data⟩ = _
      rw [show (String.mk (processTechnician s.data)).data
            = processTechnician s.data from rfl,
        processTechnician_processTechnician]
      rfl
  | num q =>
      show Value.str
          ⟨processTechnician (String.mk (processTechnician (renderRat q).data)).data⟩ = _
      rw [show (String.mk (processTechnician (renderRat q).data)).data
            = processTechnician (renderRat q).data from rfl,
        processTechnician_processTechnician]
      rfl

theorem faultMapping_values : ∀ p ∈ faultMapping,
    p.2.data ≠ [] ∧ stripList p.2.data = p.2.data ∧
    alookup faultMapping (String.mk (p.2.data.map charToLower)) = some p.2 := by
  decide

theorem processFault_processFault (l : List Char) :
    processFault (processFault l) = processFault l := by
  by_cases hl0 : l = []
  · subst hl0
    rfl
  · cases hl : alookup faultMapping (String.mk ((stripList l).map charToLower)) with
    | some v =>
        have hv : v.data ≠ [] ∧ stripList v.data = v.data ∧
            alookup faultMapping (String.mk (v.data.map charToLower)) = some v := by
          rcases alookup_cases faultMapping
              (String.mk ((stripList l).map charToLower)) with h0 | ⟨b, hb, hmem⟩
          · rw [h0] at hl; cases hl
          · rw [hb] at hl
            cases hl
            exact faultMapping_values _ hmem
        have h1 : processFault l = v.data := by rw [processFault, if_neg hl0, hl]
        rw [h1, processFault, if_neg hv.1, hv.2.1, hv.2.2]
    | none =>
        have h1 : processFault l = titleAux false (stripList l) := by
          rw [processFault, if_neg hl0, hl]
        rw [h1]
        by_cases ht0 : titleAux false (stripList l) = []
        · rw [ht0]
          rfl
        · rw [processFault, if_neg ht0, stripList_titleAux_stripList,
            map_charToLower_titleAux (stripList l) false, hl, titleAux_titleAux]

/-- `normalize_fault_type` is idempotent on every cell value. -/
theorem normalizeFaultType_normalizeFaultType (v : Value) :
    normalizeFaultType (normalizeFaultType v) = normalizeFaultType v := by
  cases v with
  | null => rfl
  | str s =>
      show Value.str ⟨processFault (String.mk (processFault s.data)).data⟩ = _
      rw [show (String.mk (processFault s.data)).data = processFault s.data from rfl,
        processFault_processFault]
      rfl
  | num q =>
      show Value.str
          ⟨processFault (String.mk (processFault (renderRat q).data)).data⟩ = _
      rw [show (String.mk (processFault (renderRat q).data)).data
            = processFault (renderRat q).data from rfl,
        processFault_processFault]
      rfl

theorem firstSome_cons_some {α : Type} (a : α) (rest : List (Option α)) :
    firstSome (some a :: rest) = some a := rfl

theorem mem_durationStrats_round2 (t : List Char) (o : Option ℚ)
    (ho : o ∈ durationStrats t) (q : ℚ) (hq : o = some q) : ∃ x, q = round2 x := by
  rw [durationStrats] at ho
  simp only [List.mem_cons, List.not_mem_nil, or_false] at ho
  subst hq
  rcases ho with h | h | h | h | h | h
  · obtain ⟨a, _, ha⟩ := Option.map_eq_some'.mp h.symm
    exact ⟨a, ha.symm⟩
  · obtain ⟨a, _, ha⟩ := Option.map_eq_some'.mp h.symm
    exact ⟨_, ha.symm⟩
  · obtain ⟨a, _, ha⟩ := Option.map_eq_some'.mp h.symm
    exact ⟨_, ha.symm⟩
  · obtain ⟨a, _, ha⟩ := Option.map_eq_some'.mp h.symm
    exact ⟨_, ha.symm⟩
  · obtain ⟨a, _, ha⟩ := Option.map_eq_some'.mp h.symm
    exact ⟨_, ha.symm⟩
  · obtain ⟨a, _, ha⟩ := Option.map_eq_some'.mp h.symm
    exact ⟨_, ha.symm⟩

theorem processDuration_shape (l : List Char) :
    ∃ m : ℤ, (processDuration l).1 = (m : ℚ) / 100 := by
  cases h : firstSome (durationStrats (repairDouble (stripList l)).1) with
  | some q =>
      have h1 : (processDuration l).1 = q := by rw [processDuration, h]
      have hmem := firstSome_mem _ _ h
      obtain ⟨x, hx⟩ := mem_durationStrats_round2 _ _ hmem q rfl
      obtain ⟨m, hm⟩ := round2_eq_int_div x
      exact ⟨m, by rw [h1, hx, hm]⟩
  | none =>
      refine ⟨0, ?_⟩
      have h1 : (processDuration l).1 = 0 := by rw [processDuration, h]
      rw [h1]
      norm_num

theorem normalizeDurationLog_shape (v : Value) :
    ∃ m : ℤ, (normalizeDurationLog v).1 = (m : ℚ) / 100 := by
  cases v with
  | null => exact ⟨0, by rw [normalizeDurationLog]; norm_num⟩
  | str s => exact processDuration_shape _
  | num q => exact processDuration_shape _

theorem renderRat_no_space (q : ℚ) (k : Nat) (hk : decExponent q.den = some k) :
    ∀ c ∈ (renderRat q).data, isSpaceChar c = false := by
  rw [renderRat_eq q k hk]
  intro c hc
  simp only [List.mem_append] at hc
  rcases hc with (hc | hc) | hc
  · by_cases hq : q < 0
    · rw [if_pos hq] at hc
      rw [List.mem_singleton] at hc
      rw [hc]
      decide
    · rw [if_neg hq] at hc
      simp at hc
  · exact isDigitChar_not_space c (natToDigits_all_digits _ c hc)
  · rcases List.mem_cons.mp hc with hc | hc
    · rw [hc]; decide
    · exact isDigitChar_not_space c (renderFp_digits k _ c hc)

theorem count_dot_renderRat (q : ℚ) (k : Nat) (hk : decExponent q.den = some k) :
    (renderRat q).data.count '.' = 1 := by
  have hnotdot : ∀ (m : List Char), (∀ c ∈ m, isDigitChar c = true) →
      m.count '.' = 0 := by
    intro m hm
    rw [List.count_eq_zero]
    intro hmem
    have := hm _ hmem
    exact absurd this (by decide)
  rw [renderRat_eq q k hk]
  show List.count '.' _ = 1
  rw [List.count_append, List.count_append, List.count_cons]
  have h1 : List.count '.' (if q < 0 then ['-'] else []) = 0 := by
    by_cases hq : q < 0
    · rw [if_pos hq]; decide
    · rw [if_neg hq]; decide
  have h2 : List.count '.' (natToDigits (q.num.natAbs * (10 ^ k / q.den) / 10 ^ k)) = 0 :=
    hnotdot _ (natToDigits_all_digits _)
  have h3 : List.count '.'
      (if k = 0 then ['0']
        else padZeros k (natToDigits (q.num.natAbs * (10 ^ k / q.den) % 10 ^ k))) = 0 :=
    hnotdot _ (renderFp_digits k _)
  rw [h1, h2, h3]
  simp

theorem processDuration_round2_fixed (q : ℚ) (k : Nat)
    (hk : decExponent q.den = some k) (hq : round2 q = q) :
    processDuration (renderRat q).data = (q, []) := by
  have hstrip : stripList (renderRat q).data = (renderRat q).data :=
    stripList_eq_self_of_no_space _ (renderRat_no_space q k hk)
  have hrepair : repairDouble (renderRat q).data = ((renderRat q).data, false) := by
    rw [repairDouble, if_neg]
    intro hcon
    rw [count_dot_renderRat q k hk] at hcon
    omega
  have hr1 : (repairDouble (stripList (renderRat q).data)).1 = (renderRat q).data := by
    rw [hstrip, hrepair]
  have hs1 : strat1 (renderRat q).data = some q := by
    rw [strat1, parseFloatList_renderRat q k hk, Option.map_some', hq]
  have hfs : firstSome (durationStrats (repairDouble (stripList (renderRat q).data)).1)
      = some q := by
    rw [hr1, durationStrats, hs1, firstSome_cons_some]
  rw [processDuration, hfs, durationRepairLog, hstrip, hrepair]
  rfl

/-- `normalize_duration` is idempotent as a cell transformation. -/
theorem normalizeDuration_normalizeDuration (v : Value) :
    normalizeDuration (normalizeDuration v) = normalizeDuration v := by
  obtain ⟨m, hm⟩ := normalizeDurationLog_shape v
  have hround : round2 (normalizeDurationLog v).1 = (normalizeDurationLog v).1 := by
    rw [hm]
    exact round2_int_div m
  have hden : ((normalizeDurationLog v).1.den : ℤ) ∣ 100 :=
    den_dvd_of_eq_int_div _ m hm
  obtain ⟨j, hj⟩ := decExponent_some_of_dvd (normalizeDurationLog v).1.den 2
    (by omega) (by
      have : (normalizeDurationLog v).1.den ∣ 100 := by exact_mod_cast hden
      simpa using this)
  show Value.num (normalizeDurationLog (.num (normalizeDurationLog v).1)).1 = _
  rw [normalizeDurationLog, processDuration_round2_fixed _ j hj hround]
  rfl

/-! ### Records, `clean_data` and `generate_report` -/

/-- One row of `interventions_2024.csv` as loaded by `pd.read_csv`. -/
structure RawRecord where
  idIntervention : Value
  idMachine : Value
  date : Value
  duree : Value
  technicien : Value
  typePanne : Value
  pieces : Value
deriving DecidableEq

/-- Element-wise pandas `!=` between an original and a normalized cell:
`NaN` compares unequal to everything, including `NaN` itself. -/
def pandasNe (a b : Value) : Bool :=
  match a, b with
  | .null, _ => true
  | _, .null => true
  | .str x, .str y => decide (x ≠ y)
  | .num x, .num y => decide (x ≠ y)
  | .str _, .num _ => true
  | .num _, .str _ => true

/-- `astype(str)` on a cell (`NaN` prints as `nan`). -/
def valueToPyStr (v : Value) : String :=
  match v with
  | .null => "nan"
  | .str s => s
  | .num q => renderRat q

/-- The five per-column normalizations of `clean_data` applied to one row;
identifier columns are untouched.  The second component is the
`changes_log` contribution of the duration cell. -/
def cleanRecord (r : RawRecord) : RawRecord × List String :=
  ({ r with
      date := normalizeDate r.date,
      duree := normalizeDuration r.duree,
      technicien := normalizeTechnician r.technicien,
      typePanne := normalizeFaultType r.typePanne,
      pieces := normalizeParts r.pieces },
   (normalizeDurationLog r.duree).2)

/-- The `changes_count` dictionary of `clean_data`. -/
structure ChangeCounts where
  dates : Nat
  durations : Nat
  technicians : Nat
  faultTypes : Nat
  parts : Nat
deriving DecidableEq

/-- `clean_data`: apply the five normalizers column-wise and count, per
column, the rows whose value compares as changed — with pandas `!=`
semantics for the date, technician, fault and parts columns and an
`astype(str)` comparison for the duration column. -/
def cleanData (df : List RawRecord) : List RawRecord × ChangeCounts :=
  (df.map (fun r => (cleanRecord r).1),
   { dates := df.countP (fun r => pandasNe r.date (normalizeDate r.date)),
     durations := df.countP (fun r =>
       decide (valueToPyStr r.duree ≠ valueToPyStr (normalizeDuration r.duree))),
     technicians := df.countP (fun r =>
       pandasNe r.technicien (normalizeTechnician r.technicien)),
     faultTypes := df.countP (fun r =>
       pandasNe r.typePanne (normalizeFaultType r.typePanne)),
     parts := df.countP (fun r => pandasNe r.pieces (normalizeParts r.pieces)) })

/-- The data content of the report written by `generate_report`: the record
total and the per-field change counters; nothing else about the rows enters
the report. -/
structure ReportStats where
  totalRecords : Nat
  totalChanges : Nat
  counts : ChangeCounts
deriving DecidableEq

def reportStats (df : List RawRecord) : ReportStats :=
  { totalRecords := (cleanData df).1.length,
    totalChanges := (cleanData df).2.dates + (cleanData df).2.durations +
      (cleanData df).2.technicians + (cleanData df).2.faultTypes +
      (cleanData df).2.parts,
    counts := (cleanData df).2 }

/-- Overwrite the two identifier columns of a row. -/
def setIds (f g : RawRecord → Value) (r : RawRecord) : RawRecord :=
  { r with idIntervention := f r, idMachine := g r }

/-- Modelled from the spec: the count of records missing a critical
identifier (`id` or `machine_id`), which the spec says the report surfaces;
no function of `clean_interventions.py` computes it. -/
def specMissingIdCount (df : List RawRecord) : Nat :=
  df.countP (fun r => decide (r.idIntervention = .null ∨ r.idMachine = .null))

theorem cleanData_length (df : List RawRecord) :
    (cleanData df).1.length = df.length := by
  rw [cleanData]
  exact List.length_map df _

theorem cleanData_counts_id_free (df : List RawRecord) (f g : RawRecord → Value) :
    (cleanData (df.map (setIds f g))).2 = (cleanData df).2 := by
  rw [cleanData, cleanData]
  simp only [List.countP_map]
  rfl

theorem reportStats_id_free (df : List RawRecord) (f g : RawRecord → Value) :
    reportStats (df.map (setIds f g)) = reportStats df := by
  rw [reportStats, reportStats, cleanData_length, cleanData_length,
    List.length_map, cleanData_counts_id_free]

/-! ### The analysis scripts: typed rows of the cleaned CSV -/

/-- One row of the cleaned CSV as the analysis scripts read it: a date as a
day number (`pd.to_datetime` at day granularity), a numeric downtime and
string identifiers. -/
structure CRow where
  idIntervention : Nat
  idMachine : String
  date : Int
  dureeArretH : ℚ
  technicien : String
  typePanne : Option String
  pieces : String
deriving DecidableEq

/-- `pd.unique` / `.unique()`: distinct values in first-occurrence order. -/
def uniqueFirst {α : Type} [DecidableEq α] : List α → List α
  | [] => []
  | a :: rest => a :: (uniqueFirst rest).filter (fun b => b ≠ a)

theorem mem_uniqueFirst {α : Type} [DecidableEq α] (l : List α) (b : α) :
    b ∈ uniqueFirst l ↔ b ∈ l := by
  induction l with
  | nil => simp [uniqueFirst]
  | cons a rest ih =>
      simp only [uniqueFirst, List.mem_cons, List.mem_filter]
      constructor
      · rintro (h | ⟨h, _⟩)
        · exact Or.inl h
        · exact Or.inr (ih.mp h)
      · rintro (h | h)
        · exact Or.inl h
        · by_cases hba : b = a
          · exact Or.inl hba
          · exact Or.inr ⟨ih.mpr h, by simp [hba]⟩

/-- The machine keys of a `groupby('ID_Machine')`, which pandas sorts in
ascending order. -/
def groupKeys (df : List CRow) : List String :=
  (uniqueFirst (df.map (fun r => r.idMachine))).insertionSort (fun a b => a ≤ b)

/-- The rows of one `groupby` group, in frame order. -/
def machineRows (df : List CRow) (m : String) : List CRow :=
  df.filter (fun r => r.idMachine = m)

/-- Series `.sum()`. -/
def qsum (l : List ℚ) : ℚ := l.sum

/-- Series `.mean()` (the series is nonempty wherever this is used). -/
def qmean (l : List ℚ) : ℚ := l.sum / l.length

/-- `sort_values(by=key, ascending=False)`: pandas argsorts ascending and
reverses the order; on the small frames in play numpy quicksort degenerates
to a stable insertion sort, so this is reverse of a stable ascending sort. -/
def sortDescBy {α : Type} (key : α → ℚ) (l : List α) : List α :=
  (l.insertionSort (fun a b => key a ≤ key b)).reverse

/-- `sort_values('Date')`: stable ascending sort by date. -/
def sortByDate (l : List CRow) : List CRow :=
  l.insertionSort (fun a b => a.date ≤ b.date)

/-- Consecutive differences of a list (`shift(-1)`/`diff()` without the
`NaN` cell, which the later `mean`/`std` skip). -/
def deltasDays : List Int → List Int
  | a :: b :: rest => (b - a) :: deltasDays (b :: rest)
  | _ => []

/-! ### `analyze_maintenance_metrics.calculate_metrics` -/

/-- One output row of `calculate_metrics`. -/
structure MetricsRow where
  idMachine : String
  nbInterventions : Nat
  mttrHeures : ℚ
  tempsArretCumuleHeures : ℚ
  mtbfJours : ℚ
  tauxDisponibilite : ℚ
deriving DecidableEq

/-- The metrics of one machine group: intervention count, rounded mean and
sum of the downtimes, `365.0 / count` and the availability percentage. -/
def machineMetricsRow (df : List CRow) (m : String) : MetricsRow :=
  { idMachine := m,
    nbInterventions := (machineRows df m).length,
    mttrHeures := round2 (qmean ((machineRows df m).map (fun r => r.dureeArretH))),
    tempsArretCumuleHeures :=
      round2 (qsum ((machineRows df m).map (fun r => r.dureeArretH))),
    mtbfJours := round2 (365 / ((machineRows df m).length : ℚ)),
    tauxDisponibilite := round2 ((((8760 : ℚ) -
      qsum ((machineRows df m).map (fun r => r.dureeArretH))) / 8760) * 100) }

/-- `calculate_metrics`: per-machine metrics, sorted by cumulative downtime
descending. -/
def calculate_metrics (df : List CRow) : List MetricsRow :=
  sortDescBy (fun r => r.tempsArretCumuleHeures)
    ((groupKeys df).map (machineMetricsRow df))

/-! ### `app_maintenance.calculate_pareto` and `calculate_mtbf` -/

/-- One output row of `calculate_pareto`. -/
structure ParetoRow where
  idMachine : String
  tempsArretTotal : ℚ
  cumulTempsArret : ℚ
  cumulPct : ℚ
  pctTempsArret : ℚ
  zoneCritique : Bool
deriving DecidableEq

/-- The cumulative-sum pass over the sorted (machine, downtime) pairs. -/
def paretoRows (total : ℚ) : ℚ → List (String × ℚ) → List ParetoRow
  | _, [] => []
  | acc, (m, v) :: rest =>
      { idMachine := m, tempsArretTotal := v, cumulTempsArret := acc + v,
        cumulPct := (acc + v) / total * 100, pctTempsArret := v / total * 100,
        zoneCritique := decide ((acc + v) / total * 100 ≤ 80) } ::
      paretoRows total (acc + v) rest

/-- The grouped and descending-sorted (machine, total downtime) pairs. -/
def paretoBase (df : List CRow) : List (String × ℚ) :=
  ((groupKeys df).map (fun m =>
    (m, qsum ((machineRows df m).map (fun r => r.dureeArretH))))).insertionSort
      (fun a b => a.2 ≤ b.2) |>.reverse

/-- `calculate_pareto`: sum downtime per machine, sort descending, attach
cumulative percentages, and flag `Zone_Critique = (Cumul_% <= 80)`. -/
def calculate_pareto (df : List CRow) : List ParetoRow :=
  paretoRows (qsum ((paretoBase df).map (fun p => p.2))) 0 (paretoBase df)

/-- One output row of `app_maintenance.calculate_mtbf`. -/
structure MtbfRow where
  idMachine : String
  tempsArretTotal : ℚ
  nbInterventions : Nat
  mtbf : ℚ
  disponibilite : ℚ
deriving DecidableEq

/-- `app_maintenance.calculate_mtbf`:
`MTBF = (8760 - total downtime) / intervention count` per machine. -/
def calculate_mtbf (df : List CRow) : List MtbfRow :=
  (groupKeys df).map (fun m =>
    { idMachine := m,
      tempsArretTotal := qsum ((machineRows df m).map (fun r => r.dureeArretH)),
      nbInterventions := (machineRows df m).length,
      mtbf := ((8760 : ℚ) - qsum ((machineRows df m).map (fun r => r.dureeArretH))) /
        ((machineRows df m).length : ℚ),
      disponibilite := ((8760 : ℚ) -
        qsum ((machineRows df m).map (fun r => r.dureeArretH))) / 8760 * 100 })

/-! ### `app_maintenance_dashboard.calculate_mtbf_mttr` (event-gap MTBF) -/

/-- The hour gaps between a machine's chronologically sorted interventions
(`Time_Between`, day deltas converted to hours). -/
def machineGapsHours (df : List CRow) (m : String) : List ℚ :=
  (deltasDays ((sortByDate (machineRows df m)).map (fun r => r.date))).map
    (fun d => (Int.cast d : ℚ) * 24)

/-- The `mtbf_data` rows: one `(machine, MTBF, count)` triple per machine
with strictly more than one intervention, in `.unique()` order; machines
with a single event contribute nothing. -/
def mtbfEventRows (df : List CRow) : List (String × ℚ × Nat) :=
  (uniqueFirst (df.map (fun r => r.idMachine))).filterMap (fun m =>
    if 1 < (machineRows df m).length then
      some (m, qmean (machineGapsHours df m), (machineRows df m).length)
    else none)

/-- `calculate_mtbf_mttr`: global MTTR, global event-gap MTBF (0 when no
machine has two events), and the per-machine rows. -/
def calculate_mtbf_mttr (df : List CRow) : ℚ × ℚ × List (String × ℚ × Nat) :=
  (qmean (df.map (fun r => r.dureeArretH)),
   if mtbfEventRows df = [] then 0
   else qmean ((mtbfEventRows df).map (fun p => p.2.1)),
   mtbfEventRows df)

/-! ### `app_maintenance_dashboard_v2.analyze_recurrence` -/

/-- One output row of `analyze_recurrence`. -/
structure RecurrenceRow where
  machine : String
  typePanne : String
  nbOccurrences : Nat
  delaiMoyenJours : ℚ
  scoreRecurrence : ℚ
deriving DecidableEq

/-- The unsorted recurrence rows: for each machine (in `.unique()` order)
and each non-null fault type of its date-sorted frame, keep the pairs with
more than one occurrence and score them. -/
def recurrenceRowsUnsorted (df : List CRow) : List RecurrenceRow :=
  (uniqueFirst (df.map (fun r => r.idMachine))).flatMap (fun m =>
    (uniqueFirst ((sortByDate (machineRows df m)).filterMap
        (fun r => r.typePanne))).filterMap (fun p =>
      let pdf := (sortByDate (machineRows df m)).filter
        (fun r => r.typePanne = some p)
      let dm := qmean ((deltasDays (pdf.map (fun r => r.date))).map
        (Int.cast : ℤ → ℚ))
      if 1 < pdf.length then
        some { machine := m, typePanne := p, nbOccurrences := pdf.length,
               delaiMoyenJours := dm,
               scoreRecurrence := if 0 < dm then (pdf.length : ℚ) / (dm + 1)
                 else (pdf.length : ℚ) }
      else none))

/-- `analyze_recurrence`: the rows ranked by score descending. -/
def analyze_recurrence (df : List CRow) : List RecurrenceRow :=
  sortDescBy (fun r => r.scoreRecurrence) (recurrenceRowsUnsorted df)

/-! ### `app_maintenance_dashboard_v2.analyze_technician_performance` -/

/-- Sample variance with `ddof = 1` (what pandas `.std()` squares to);
defined only when at least two values remain, otherwise the `.std()` is
`NaN`, modelled as `none`.  The code stores the standard deviation — the
square root of this value — so `none`/`some 0`/finiteness transfer. -/
def sampleVarianceDdof1 (l : List ℚ) : Option ℚ :=
  if 2 ≤ l.length then
    some (((l.map (fun x => (x - qmean l) ^ 2)).sum) / ((l.length : ℚ) - 1))
  else none

/-- `value_counts().index[0]`: the most frequent fault type (`N/A` when the
series is empty); ties resolved by the underlying sort of the counts. -/
def specialisationOf (tdf : List CRow) : String :=
  match sortDescBy (fun p => ((tdf.filterMap (fun r => r.typePanne)).count p : ℚ))
      (uniqueFirst (tdf.filterMap (fun r => r.typePanne))) with
  | [] => "N/A"
  | p :: _ => p

/-- One output row of `analyze_technician_performance`; `regularite` is
`none` where the code's `.std()` is `NaN`. -/
structure TechRow where
  technicien : String
  nbInterventions : Nat
  tempsMoyenH : ℚ
  specialisation : String
  regularite : Option ℚ
  tempsTotalH : ℚ
deriving DecidableEq

/-- The `Regularite` cell: 0 for a single intervention, else the `.std()`
(`ddof = 1`, first `diff()` cell `NaN` skipped) of the day gaps. -/
def regulariteOf (tdf : List CRow) : Option ℚ :=
  if 1 < tdf.length then
    sampleVarianceDdof1 ((deltasDays ((sortByDate tdf).map (fun r => r.date))).map
      (Int.cast : ℤ → ℚ))
  else some 0

/-- `analyze_technician_performance`: one row per technician in `.unique()`
order, sorted by intervention count descending. -/
def analyze_technician_performance (df : List CRow) : List TechRow :=
  sortDescBy (fun r => (r.nbInterventions : ℚ))
    ((uniqueFirst (df.map (fun r => r.technicien))).map (fun tech =>
      { technicien := tech,
        nbInterventions := (df.filter (fun r => r.technicien = tech)).length,
        tempsMoyenH := qmean ((df.filter (fun r => r.technicien = tech)).map
          (fun r => r.dureeArretH)),
        specialisation := specialisationOf (df.filter (fun r => r.technicien = tech)),
        regularite := regulariteOf (df.filter (fun r => r.technicien = tech)),
        tempsTotalH := qsum ((df.filter (fun r => r.technicien = tech)).map
          (fun r => r.dureeArretH)) }))

/-! ### Generic facts about the descending sorts -/

theorem sortDescBy_sorted {α : Type} (key : α → ℚ) (l : List α) :
    List.Sorted (fun a b => key b ≤ key a) (sortDescBy key l) := by
  haveI ht : IsTotal α (fun a b => key a ≤ key b) :=
    ⟨fun a b => le_total (key a) (key b)⟩
  haveI htr : IsTrans α (fun a b => key a ≤ key b) :=
    ⟨fun _ _ _ h1 h2 => le_trans h1 h2⟩
  have hs := List.sorted_insertionSort (fun a b => key a ≤ key b) l
  rw [sortDescBy]
  exact List.pairwise_reverse.mpr hs

theorem mem_sortDescBy {α : Type} (key : α → ℚ) (l : List α) (a : α) :
    a ∈ sortDescBy key l ↔ a ∈ l := by
  rw [sortDescBy, List.mem_reverse, List.mem_insertionSort]

theorem mem_groupKeys (df : List CRow) (m : String) :
    m ∈ groupKeys df ↔ m ∈ df.map (fun r => r.idMachine) := by
  rw [groupKeys, List.mem_insertionSort, mem_uniqueFirst]

theorem deltasDays_length (l : List Int) :
    (deltasDays l).length = l.length - 1 := by
  induction l with
  | nil => simp [deltasDays]
  | cons a rest ih =>
      cases rest with
      | nil => simp [deltasDays]
      | cons b r2 =>
          rw [deltasDays]
          simp only [List.length_cons] at ih ⊢
          omega

/-! ### Claim theorems: the cleaning pipeline -/

/-- The record used to refute the idempotence claim: every field is already
in normal form except the parts list `"A - - B"`. -/
def c1rec : RawRecord :=
  { idIntervention := .str "1", idMachine := .str "M1",
    date := .str "2024-01-15", duree := .str "14.00",
    technicien := .str "Marie Simon", typePanne := .str "Fuite",
    pieces := .str "A - - B" }

/-- C1 (counterexample): the cleaning pipeline is not idempotent.  On the
parts value `"A - - B"` the first run yields `"A, - B"` (the whitespace
collapse and separator replacement create a fresh `" - "` separator) and the
second run turns that into `"A,, B"`; the second run therefore changes the
record and reports a nonzero parts counter. -/
theorem C1_counterexample :
    normalizeParts (normalizeParts (.str "A - - B")) ≠
      normalizeParts (.str "A - - B") ∧
    (cleanData (cleanData [c1rec]).1).2.parts = 1 ∧
    (cleanData (cleanData [c1rec]).1).1 ≠ (cleanData [c1rec]).1 := by
  decide!

/-- C1 (amended): the date, duration, technician and fault-type normalizers
are idempotent on every cell value, so a second clean run leaves those four
fields of every record unchanged; only the parts field can change again. -/
theorem C1_four_normalizers_idempotent :
    (∀ v, normalizeDate (normalizeDate v) = normalizeDate v) ∧
    (∀ v, normalizeDuration (normalizeDuration v) = normalizeDuration v) ∧
    (∀ v, normalizeTechnician (normalizeTechnician v) = normalizeTechnician v) ∧
    (∀ v, normalizeFaultType (normalizeFaultType v) = normalizeFaultType v) ∧
    (∀ r : RawRecord,
      (cleanRecord (cleanRecord r).1).1.date = (cleanRecord r).1.date ∧
      (cleanRecord (cleanRecord r).1).1.duree = (cleanRecord r).1.duree ∧
      (cleanRecord (cleanRecord r).1).1.technicien = (cleanRecord r).1.technicien ∧
      (cleanRecord (cleanRecord r).1).1.typePanne = (cleanRecord r).1.typePanne) := by
  refine ⟨normalizeDate_normalizeDate, normalizeDuration_normalizeDuration,
    normalizeTechnician_normalizeTechnician, normalizeFaultType_normalizeFaultType,
    fun r => ⟨?_, ?_, ?_, ?_⟩⟩
  · exact normalizeDate_normalizeDate r.date
  · exact normalizeDuration_normalizeDuration r.duree
  · exact normalizeTechnician_normalizeTechnician r.technicien
  · exact normalizeFaultType_normalizeFaultType r.typePanne

/-- C2 (counterexample): on a date string that matches no format,
`normalize_date` returns the original string, not a null marker. -/
theorem C2_counterexample :
    normalizeDate (.str "not-a-date") = .str "not-a-date" ∧
    Value.str "not-a-date" ≠ .null := by decide

/-- C2 (amended): a date string matching none of the five formats is
returned as the stripped original string — no exception, no null marker —
and cleaning never removes a row. -/
theorem C2_unparsable_returns_original :
    (∀ s : String, parseAnyDate (stripList s.data) = none →
      normalizeDate (.str s) = .str ⟨stripList s.data⟩) ∧
    (∀ df : List RawRecord, (cleanData df).1.length = df.length) := by
  constructor
  · intro s h
    show Value.str ⟨processDate s.data⟩ = _
    rw [processDate, h]
  · exact cleanData_length

theorem C2_witness : normalizeDate (.str "not-a-date") = .str "not-a-date" := by
  rw [C2_unparsable_returns_original.1 "not-a-date" (by decide)]
  decide

/-- C4: cleaning never removes a record — the output has exactly as many
records as the input, whatever the field values are. -/
theorem C4_no_drop (df : List RawRecord) : (cleanData df).1.length = df.length :=
  cleanData_length df

/-- A record whose machine identifier is missing, and the same record with
it present. -/
def c9missing : RawRecord :=
  { idIntervention := .str "1", idMachine := .null, date := .null,
    duree := .null, technicien := .null, typePanne := .null, pieces := .null }

def c9present : RawRecord :=
  { c9missing with idMachine := .str "M1" }

/-- C9 (counterexample): a record missing `machine_id` is retained, but the
cleaning report is bit-for-bit the one produced when the identifier is
present — no count of missing identifiers is computed or surfaced. -/
theorem C9_counterexample :
    specMissingIdCount [c9missing] = 1 ∧ specMissingIdCount [c9present] = 0 ∧
    reportStats [c9missing] = reportStats [c9present] ∧
    (cleanData [c9missing]).1.length = 1 := by
  decide!

/-- C9 (amended): records missing `id` or `machine_id` are retained and
never cause a failure — the identifier columns pass through cleaning
untouched and the row count is preserved — but the report depends only on
the non-identifier columns, so no missing-identifier count is surfaced. -/
theorem C9_retained_not_surfaced :
    (∀ (df : List RawRecord) f g, reportStats (df.map (setIds f g)) = reportStats df) ∧
    (∀ df : List RawRecord, (cleanData df).1.length = df.length) ∧
    (∀ r : RawRecord, (cleanRecord r).1.idIntervention = r.idIntervention ∧
      (cleanRecord r).1.idMachine = r.idMachine) :=
  ⟨reportStats_id_free, cleanData_length, fun _ => ⟨rfl, rfl⟩⟩

/-! ### Claim theorems: `normalize_duration` strategy order -/

theorem firstSome_append_none {α : Type} (pre : List (Option α)) (q : α)
    (post : List (Option α)) (h : ∀ o ∈ pre, o = none) :
    firstSome (pre ++ some q :: post) = some q := by
  induction pre with
  | nil => rfl
  | cons o rest ih =>
      have ho : o = none := h o (by simp)
      subst ho
      rw [List.cons_append, firstSome]
      exact ih (fun o hm => h o (by simp [hm]))

theorem firstSome_eq_none {α : Type} (l : List (Option α))
    (h : ∀ o ∈ l, o = none) : firstSome l = none := by
  induction l with
  | nil => rfl
  | cons o rest ih =>
      have ho : o = none := h o (by simp)
      subst ho
      rw [firstSome]
      exact ih (fun o hm => h o (by simp [hm]))

/-- C3: `normalize_duration` tries its strategies in source order and keeps
the first success: whenever the strategy list splits as `pre ++ some q :: post`
with every strategy of `pre` failing, the result is `q` (plus the repair log);
when every strategy fails the result is `0.0` and a warning entry is appended
to the log; and the literal table of the spec holds, including the
double-decimal repair `"33.0.25" -> 33.25` with its log entry and the
`"garbage" -> 0.0` fallback with its warning. -/
theorem C3_strategy_order_and_table :
    (∀ (l0 : List Char) pre q post,
        durationStrats (repairDouble (stripList l0)).1 = pre ++ some q :: post →
        (∀ o ∈ pre, o = none) →
        processDuration l0 = (q, durationRepairLog (repairDouble (stripList l0)))) ∧
    (∀ l0 : List Char,
        (∀ o ∈ durationStrats (repairDouble (stripList l0)).1, o = none) →
        processDuration l0 = (0, durationRepairLog (repairDouble (stripList l0)) ++
          [warnMsg (repairDouble (stripList l0)).1])) ∧
    normalizeDuration (.str "14.00") = .num 14 ∧
    normalizeDuration (.str "41h45") = .num (167 / 4) ∧
    normalizeDuration (.str "13 heures 30 min") = .num (27 / 2) ∧
    normalizeDuration (.str "9:45") = .num (39 / 4) ∧
    normalizeDurationLog (.str "33.0.25") = (133 / 4, [repairMsg "33.25".data]) ∧
    normalizeDurationLog (.str "garbage") = (0, [warnMsg "garbage".data]) := by
  refine ⟨?_, ?_, ?_, ?_, ?_, ?_, ?_, ?_⟩
  · intro l0 pre q post hsplit hpre
    rw [processDuration, hsplit, firstSome_append_none pre q post hpre]
  · intro l0 hall
    rw [processDuration, firstSome_eq_none _ hall]
  all_goals decide!

/-- C3 (witness): the order property applied at `"41h45"` — strategy 1
fails, strategy 2 is the first success — and at `"garbage"`, where every
strategy fails. -/
theorem C3_witness :
    processDuration "41h45".data = (167 / 4, []) ∧
    processDuration "garbage".data = (0, [warnMsg "garbage".data]) := by
  constructor
  · refine (C3_strategy_order_and_table.1 "41h45".data [none] (167 / 4)
      [none, none, some (167 / 4), none] ?_ ?_).trans ?_
    · decide!
    · decide
    · decide!
  · refine (C3_strategy_order_and_table.2.1 "garbage".data ?_).trans ?_
    · decide!
    · decide!

/-! ### Claim theorems: `calculate_metrics` -/

/-- Three interventions of a single machine with downtimes 2, 4 and 6. -/
def df5 : List CRow :=
  [{ idIntervention := 1, idMachine := "M1", date := 0, dureeArretH := 2,
     technicien := "T", typePanne := none, pieces := "" },
   { idIntervention := 2, idMachine := "M1", date := 1, dureeArretH := 4,
     technicien := "T", typePanne := none, pieces := "" },
   { idIntervention := 3, idMachine := "M1", date := 2, dureeArretH := 6,
     technicien := "T", typePanne := none, pieces := "" }]

/-- The expected metrics row for the `[2, 4, 6]` machine group. -/
def c5row : MetricsRow :=
  { idMachine := "M1", nbInterventions := 3, mttrHeures := 4,
    tempsArretCumuleHeures := 12, mtbfJours := 12167 / 100,
    tauxDisponibilite := 4993 / 50 }

/-- C5: the metrics table holds exactly one row per machine group, carrying
the count, rounded mean and sum of the downtimes, `round(365.0/count, 2)` and
the rounded availability percentage; the table is sorted by cumulative
downtime descending; and on the single-machine dataset with downtimes
`[2, 4, 6]` it evaluates to count 3, MTTR 4.0, cumulative 12.0,
MTBF 121.67 and availability 99.86. -/
theorem C5_metrics_formulas_and_example :
    (∀ (df : List CRow) (r : MetricsRow), r ∈ calculate_metrics df ↔
      ∃ m, m ∈ groupKeys df ∧ r = machineMetricsRow df m) ∧
    (∀ df : List CRow, List.Sorted
      (fun a b => b.tempsArretCumuleHeures ≤ a.tempsArretCumuleHeures)
      (calculate_metrics df)) ∧
    calculate_metrics df5 = [c5row] := by
  refine ⟨?_, ?_, ?_⟩
  · intro df r
    rw [calculate_metrics, mem_sortDescBy, List.mem_map]
    constructor
    · rintro ⟨m, hm, rfl⟩
      exact ⟨m, hm, rfl⟩
    · rintro ⟨m, hm, rfl⟩
      exact ⟨m, hm, rfl⟩
  · intro df
    exact sortDescBy_sorted _ _
  · decide!

/-- C5 (witness): the `[2, 4, 6]` machine group's row is in its table. -/
theorem C5_witness : machineMetricsRow df5 "M1" ∈ calculate_metrics df5 :=
  (C5_metrics_formulas_and_example.1 df5 _).mpr
    ⟨"M1", by decide!, rfl⟩

/-! ### Claim theorems: `calculate_pareto` -/

/-- `cumsum`: the running sums of a list, starting from `acc`. -/
def runningSums : ℚ → List ℚ → List ℚ
  | _, [] => []
  | acc, v :: rest => (acc + v) :: runningSums (acc + v) rest

theorem paretoRows_map_cumulPct (total : ℚ) :
    ∀ (l : List (String × ℚ)) (acc : ℚ),
      (paretoRows total acc l).map (fun r => r.cumulPct) =
        (runningSums acc (l.map (fun p => p.2))).map (fun s => s / total * 100) := by
  intro l
  induction l with
  | nil => intro acc; rfl
  | cons p rest ih =>
      intro acc
      rw [paretoRows, List.map_cons, ih (acc + p.2), List.map_cons]
      rfl

theorem paretoRows_crit (total : ℚ) :
    ∀ (l : List (String × ℚ)) (acc : ℚ) r, r ∈ paretoRows total acc l →
      r.zoneCritique = decide (r.cumulPct ≤ 80) := by
  intro l
  induction l with
  | nil => intro acc r h; cases h
  | cons p rest ih =>
      intro acc r h
      rw [paretoRows] at h
      rcases List.mem_cons.mp h with h1 | h2
      · subst h1; rfl
      · exact ih (acc + p.2) r h2

theorem paretoRows_map_tat (total : ℚ) :
    ∀ (l : List (String × ℚ)) (acc : ℚ),
      (paretoRows total acc l).map (fun r => r.tempsArretTotal) =
        l.map (fun p => p.2) := by
  intro l
  induction l with
  | nil => intro acc; rfl
  | cons p rest ih =>
      intro acc
      rw [paretoRows, List.map_cons, List.map_cons, ih]

theorem paretoBase_sorted (df : List CRow) :
    List.Sorted (fun a b : String × ℚ => b.2 ≤ a.2) (paretoBase df) := by
  haveI ht : IsTotal (String × ℚ) (fun a b => a.2 ≤ b.2) :=
    ⟨fun a b => le_total a.2 b.2⟩
  haveI htr : IsTrans (String × ℚ) (fun a b => a.2 ≤ b.2) :=
    ⟨fun _ _ _ h1 h2 => le_trans h1 h2⟩
  rw [paretoBase]
  exact List.pairwise_reverse.mpr
    (List.sorted_insertionSort (fun a b : String × ℚ => a.2 ≤ b.2) _)

theorem calculate_pareto_sorted (df : List CRow) :
    List.Sorted (fun a b : ParetoRow => b.tempsArretTotal ≤ a.tempsArretTotal)
      (calculate_pareto df) := by
  have hmap := paretoRows_map_tat (qsum ((paretoBase df).map (fun p => p.2)))
    (paretoBase df) 0
  have h1 : List.Pairwise (fun a b : ℚ => b ≤ a)
      ((paretoBase df).map (fun p => p.2)) :=
    List.pairwise_map.mpr (paretoBase_sorted df)
  rw [← hmap] at h1
  exact List.pairwise_map.mp h1

/-- Four machines with downtimes 50, 30, 10 and 10. -/
def df6 : List CRow :=
  [{ idIntervention := 1, idMachine := "M1", date := 0, dureeArretH := 50,
     technicien := "T", typePanne := none, pieces := "" },
   { idIntervention := 2, idMachine := "M2", date := 0, dureeArretH := 30,
     technicien := "T", typePanne := none, pieces := "" },
   { idIntervention := 3, idMachine := "M3", date := 0, dureeArretH := 10,
     technicien := "T", typePanne := none, pieces := "" },
   { idIntervention := 4, idMachine := "M4", date := 0, dureeArretH := 10,
     technicien := "T", typePanne := none, pieces := "" }]

/-- Two machines with downtimes 70 and 40: the second crosses the 80 %
threshold. -/
def df6b : List CRow :=
  [{ idIntervention := 1, idMachine := "M1", date := 0, dureeArretH := 70,
     technicien := "T", typePanne := none, pieces := "" },
   { idIntervention := 2, idMachine := "M2", date := 0, dureeArretH := 40,
     technicien := "T", typePanne := none, pieces := "" }]

/-- C6 (counterexample): machine `M2` is the first whose inclusion pushes
the cumulative percentage past 80 (from 700/11 ≈ 63.6 % to 100 %), so the
claim's additional rule would flag it critical — but the code computes
`Zone_Critique = (Cumul_% <= 80)` and marks it non-critical. -/
theorem C6_counterexample :
    (calculate_pareto df6b).map (fun r => (r.idMachine, r.cumulPct, r.zoneCritique)) =
      [("M1", 700 / 11, true), ("M2", 100, false)] ∧
    (700 / 11 : ℚ) ≤ 80 ∧ ¬ ((100 : ℚ) ≤ 80) := by decide!

/-- C6 (amended): machines are sorted by downtime descending (ties keep the
reverse of their grouped order), the cumulative percentage is the running sum
over the grand total times 100, and a machine is critical exactly when its
own cumulative percentage is ≤ 80 — with no extra rule for the machine that
first crosses the threshold.  On downtimes `[50, 30, 10, 10]` the cumulative
percentages are `[50, 80, 90, 100]`: the machine at 80 % is critical, the
one at 90 % is not. -/
theorem C6_critical_iff_cumul_le_80 :
    (∀ (df : List CRow) r, r ∈ calculate_pareto df →
      r.zoneCritique = decide (r.cumulPct ≤ 80)) ∧
    (∀ df : List CRow,
      (calculate_pareto df).map (fun r => r.cumulPct) =
        (runningSums 0 ((paretoBase df).map (fun p => p.2))).map
          (fun s => s / qsum ((paretoBase df).map (fun p => p.2)) * 100)) ∧
    (∀ df : List CRow, List.Sorted
      (fun a b : ParetoRow => b.tempsArretTotal ≤ a.tempsArretTotal)
      (calculate_pareto df)) ∧
    (calculate_pareto df6).map (fun r => (r.idMachine, r.cumulPct, r.zoneCritique)) =
      [("M1", 50, true), ("M2", 80, true), ("M4", 90, false), ("M3", 100, false)] := by
  refine ⟨?_, ?_, calculate_pareto_sorted, by decide!⟩
  · intro df r h
    exact paretoRows_crit _ _ 0 r h
  · intro df
    exact paretoRows_map_cumulPct _ _ 0

/-- The head row of the `[50, 30, 10, 10]` Pareto table. -/
def c6row : ParetoRow :=
  { idMachine := "M1", tempsArretTotal := 50, cumulTempsArret := 50,
    cumulPct := 50, pctTempsArret := 50, zoneCritique := true }

/-- C6 (witness): the criticality rule applied to a concrete row of the
`[50, 30, 10, 10]` table. -/
theorem C6_witness : c6row.zoneCritique = decide (c6row.cumulPct ≤ 80) :=
  C6_critical_iff_cumul_le_80.1 df6 c6row (by decide!)

/-! ### Claim theorems: the three MTBF formulas -/

theorem mem_mtbfEventRows (df : List CRow) (m : String) (q : ℚ) (n : Nat)
    (h : (m, q, n) ∈ mtbfEventRows df) :
    1 < (machineRows df m).length ∧ n = (machineRows df m).length ∧
    q = qmean (machineGapsHours df m) := by
  rcases List.mem_filterMap.mp h with ⟨a, _, hfa⟩
  by_cases hlen : 1 < (machineRows df a).length
  · rw [if_pos hlen] at hfa
    injection hfa with h2
    rw [Prod.mk.injEq, Prod.mk.injEq] at h2
    obtain ⟨ham, hq, hn⟩ := h2
    subst ham
    exact ⟨hlen, hn.symm, hq.symm⟩
  · rw [if_neg hlen] at hfa
    cases hfa

/-- One machine with two interventions ten days apart and 10 h of downtime
each: `app_maintenance` reports MTBF `(8760 - 20) / 2 = 4370`, the yearly
report `365 / 2` days, the dashboard a 240 h event gap. -/
def df7 : List CRow :=
  [{ idIntervention := 1, idMachine := "M1", date := 0, dureeArretH := 10,
     technicien := "T", typePanne := none, pieces := "" },
   { idIntervention := 2, idMachine := "M1", date := 10, dureeArretH := 10,
     technicien := "T", typePanne := none, pieces := "" }]

/-- C7 (counterexample): `app_maintenance.calculate_mtbf` produces an MTBF
of 4370 on `df7`, which is neither the calendar-normalised `365 / 2` nor the
event-gap mean 240 (nor either of them re-expressed in the other unit), so a
third, unsupported definition is in use. -/
theorem C7_counterexample :
    (calculate_mtbf df7).map (fun r => r.mtbf) = [4370] ∧
    (calculate_metrics df7).map (fun r => r.mtbfJours) = [365 / 2] ∧
    mtbfEventRows df7 = [("M1", 240, 2)] ∧
    (4370 : ℚ) ≠ 365 / 2 ∧ (4370 : ℚ) ≠ 240 ∧
    (4370 : ℚ) ≠ (365 / 2) * 24 ∧ (4370 : ℚ) ≠ 240 / 24 := by decide!

/-- C7 (amended): three MTBF formulas coexist, one per output table — the
yearly report uses `round(365.0 / count, 2)`; the dashboard uses the mean
event gap of the machines with at least two events, machines with a single
event contributing nothing; and `app_maintenance` uses
`(8760 - downtime) / count`, a third definition matching neither of the two
the spec supports. -/
theorem C7_three_mtbf_definitions :
    (∀ (df : List CRow) r, r ∈ calculate_metrics df →
      r.mtbfJours = round2 (365 / (r.nbInterventions : ℚ))) ∧
    (∀ (df : List CRow) m q n, (m, q, n) ∈ mtbfEventRows df →
      2 ≤ n ∧ n = (machineRows df m).length ∧ q = qmean (machineGapsHours df m)) ∧
    (∀ (df : List CRow) m q n, (machineRows df m).length ≤ 1 →
      (m, q, n) ∉ mtbfEventRows df) ∧
    (∀ (df : List CRow) r, r ∈ calculate_mtbf df →
      r.mtbf = (8760 - r.tempsArretTotal) / (r.nbInterventions : ℚ)) := by
  refine ⟨?_, ?_, ?_, ?_⟩
  · intro df r h
    rw [calculate_metrics, mem_sortDescBy] at h
    obtain ⟨m, _, rfl⟩ := List.mem_map.mp h
    rfl
  · intro df m q n h
    obtain ⟨h1, h2, h3⟩ := mem_mtbfEventRows df m q n h
    exact ⟨by omega, h2, h3⟩
  · intro df m q n hle h
    exact absurd (mem_mtbfEventRows df m q n h).1 (by omega)
  · intro df r h
    obtain ⟨m, _, rfl⟩ := List.mem_map.mp h
    rfl

/-- The `app_maintenance` row of `df7`. -/
def c7row : MtbfRow :=
  { idMachine := "M1", tempsArretTotal := 20, nbInterventions := 2,
    mtbf := 4370, disponibilite := 21850 / 219 }

/-- C7 (witness): the third formula applied to the concrete `df7` row, and
the event-gap characterisation applied to the dashboard row of `df7`. -/
theorem C7_witness :
    c7row.mtbf = (8760 - c7row.tempsArretTotal) / (c7row.nbInterventions : ℚ) ∧
    (2 ≤ 2 ∧ 2 = (machineRows df7 "M1").length ∧
      (240 : ℚ) = qmean (machineGapsHours df7 "M1")) :=
  ⟨C7_three_mtbf_definitions.2.2.2 df7 c7row (by decide!),
   C7_three_mtbf_definitions.2.1 df7 "M1" 240 2 (by decide!)⟩

/-! ### Claim theorems: the recurrence analysis -/

/-- Four interventions of one machine for the fault `"Fuite"`, nine days
apart: mean gap 9, score `4 / 10 = 0.4`. -/
def df8 : List CRow :=
  [{ idIntervention := 1, idMachine := "M1", date := 0, dureeArretH := 1,
     technicien := "T", typePanne := some "Fuite", pieces := "" },
   { idIntervention := 2, idMachine := "M1", date := 9, dureeArretH := 1,
     technicien := "T", typePanne := some "Fuite", pieces := "" },
   { idIntervention := 3, idMachine := "M1", date := 18, dureeArretH := 1,
     technicien := "T", typePanne := some "Fuite", pieces := "" },
   { idIntervention := 4, idMachine := "M1", date := 27, dureeArretH := 1,
     technicien := "T", typePanne := some "Fuite", pieces := "" }]

/-- The expected recurrence row of `df8`. -/
def c8row : RecurrenceRow :=
  { machine := "M1", typePanne := "Fuite", nbOccurrences := 4,
    delaiMoyenJours := 9, scoreRecurrence := 2 / 5 }

/-- C8: every recurrence row stands for a (machine, fault) pair with at
least two occurrences and scores `count / (mean_gap + 1)` — `count` when the
mean gap is not positive; rows are ranked by score descending; and the
`df8` pair (4 occurrences, mean gap 9 days) scores `4 / 10 = 0.4`. -/
theorem C8_recurrence_score :
    (∀ (df : List CRow) r, r ∈ analyze_recurrence df →
      2 ≤ r.nbOccurrences ∧
      r.scoreRecurrence = (if 0 < r.delaiMoyenJours
        then (r.nbOccurrences : ℚ) / (r.delaiMoyenJours + 1)
        else (r.nbOccurrences : ℚ))) ∧
    (∀ df : List CRow, List.Sorted
      (fun a b : RecurrenceRow => b.scoreRecurrence ≤ a.scoreRecurrence)
      (analyze_recurrence df)) ∧
    analyze_recurrence df8 = [c8row] := by
  refine ⟨?_, fun df => sortDescBy_sorted _ _, by decide!⟩
  intro df r h
  rw [analyze_recurrence, mem_sortDescBy, recurrenceRowsUnsorted] at h
  rcases List.mem_flatMap.mp h with ⟨m, _, hmem⟩
  rcases List.mem_filterMap.mp hmem with ⟨p, _, hfp⟩
  simp only [] at hfp
  by_cases hlen : 1 < ((sortByDate (machineRows df m)).filter
      (fun row => row.typePanne = some p)).length
  · rw [if_pos hlen] at hfp
    obtain rfl := (Option.some.inj hfp).symm
    exact ⟨by simpa using hlen, rfl⟩
  · rw [if_neg hlen] at hfp
    cases hfp

/-- C8 (witness): the score characterisation applied to the `df8` row. -/
theorem C8_witness :
    2 ≤ c8row.nbOccurrences ∧
    c8row.scoreRecurrence = (if 0 < c8row.delaiMoyenJours
      then (c8row.nbOccurrences : ℚ) / (c8row.delaiMoyenJours + 1)
      else (c8row.nbOccurrences : ℚ)) :=
  C8_recurrence_score.1 df8 c8row (by decide!)

/-! ### Claim theorems: technician regularity -/

/-- Technicians with one, two and three interventions. -/
def df10 : List CRow :=
  [{ idIntervention := 1, idMachine := "M", date := 0, dureeArretH := 1,
     technicien := "T1", typePanne := none, pieces := "" },
   { idIntervention := 2, idMachine := "M", date := 0, dureeArretH := 1,
     technicien := "T2", typePanne := none, pieces := "" },
   { idIntervention := 3, idMachine := "M", date := 5, dureeArretH := 1,
     technicien := "T2", typePanne := none, pieces := "" },
   { idIntervention := 4, idMachine := "M", date := 0, dureeArretH := 1,
     technicien := "T3", typePanne := none, pieces := "" },
   { idIntervention := 5, idMachine := "M", date := 3, dureeArretH := 1,
     technicien := "T3", typePanne := none, pieces := "" },
   { idIntervention := 6, idMachine := "M", date := 9, dureeArretH := 1,
     technicien := "T3", typePanne := none, pieces := "" }]

/-- C10: the `Regularite` cell is 0 for fewer than two interventions, is
`NaN` (modelled `none`) for exactly two — the day-gap series has a single
value and `.std()` with `ddof = 1` is undefined on it — and is a number
exactly from three interventions on; each output row carries the value for
its technician's filtered frame, as the concrete three-technician dataset
shows. -/
theorem C10_regularity_nan_for_two :
    (∀ tdf : List CRow, tdf.length ≤ 1 → regulariteOf tdf = some 0) ∧
    (∀ tdf : List CRow, tdf.length = 2 → regulariteOf tdf = none) ∧
    (∀ tdf : List CRow, 3 ≤ tdf.length → regulariteOf tdf ≠ none) ∧
    (∀ (df : List CRow) t, t ∈ analyze_technician_performance df →
      t.regularite = regulariteOf (df.filter (fun r => r.technicien = t.technicien)) ∧
      t.nbInterventions = (df.filter (fun r => r.technicien = t.technicien)).length) ∧
    (analyze_technician_performance df10).map
        (fun t => (t.technicien, t.nbInterventions, t.regularite)) =
      [("T3", 3, some (9 / 2)), ("T2", 2, none), ("T1", 1, some 0)] := by
  refine ⟨?_, ?_, ?_, ?_, by decide!⟩
  · intro tdf h
    rw [regulariteOf, if_neg (by omega)]
  · intro tdf h
    rw [regulariteOf, if_pos (by omega), sampleVarianceDdof1, if_neg (by
      simp only [List.length_map, deltasDays_length, sortByDate,
        List.length_insertionSort]
      omega)]
  · intro tdf h
    rw [regulariteOf, if_pos (by omega), sampleVarianceDdof1, if_pos (by
      simp only [List.length_map, deltasDays_length, sortByDate,
        List.length_insertionSort]
      omega)]
    simp
  · intro df t h
    rw [analyze_technician_performance, mem_sortDescBy] at h
    obtain ⟨tech, _, rfl⟩ := List.mem_map.mp h
    exact ⟨rfl, rfl⟩

/-- C10 (witness): the three regimes at the concrete technicians of `df10`
with one, two and three interventions. -/
theorem C10_witness :
    regulariteOf (df10.filter (fun r => r.technicien = "T1")) = some 0 ∧
    regulariteOf (df10.filter (fun r => r.technicien = "T2")) = none ∧
    regulariteOf (df10.filter (fun r => r.technicien = "T3")) ≠ none :=
  ⟨C10_regularity_nan_for_two.1 _ (by decide!),
   C10_regularity_nan_for_two.2.1 _ (by decide!),
   C10_regularity_nan_for_two.2.2.1 _ (by decide!)⟩

end Maintenance
